import Mathlib

/-!
# Guitar Zero: note matching, scoring and the score log

A shallow embedding of `GuitarZero.c`.

* C `int` values are `Int`.  No arithmetic of the round loop can leave the
  `int` range: `correct` and `intervalCounter` grow by one and stay at most
  `MAX_INTERVALS`.
* `uint32_t` register values are `Nat`; every mask `1 << pin` is reduced
  modulo `2 ^ 32`, so an `&` with it is a 32-bit value.
* The hardware and the clock are inputs.  Every `gpiolib_read_reg` and every
  `time(NULL)` of one pass through the round loop is a field of `Poll`.
* Output (log lines, sound clips, LED writes) is a list of `Effect`s.
* A file is the list of its characters, a file system maps a path to the
  file, when there is one.
-/

namespace GuitarZero

/-! ## Data model -/

/-- The C `struct row`: the three lane flags of one note row. -/
structure row where
  status1 : Int
  status2 : Int
  status3 : Int
deriving DecidableEq

/-- The C `struct buttons`: the pin numbers of the three buttons. -/
structure buttons where
  b1 : Nat
  b2 : Nat
  b3 : Nat
deriving DecidableEq

/-- The C `struct ledPins`: `ledxy` is the LED of row `x`, column `y`. -/
structure ledPins where
  led11 : Nat
  led12 : Nat
  led13 : Nat
  led21 : Nat
  led22 : Nat
  led23 : Nat
deriving DecidableEq

/-- The two feedback clips of `main`, named after the variable that holds the path. -/
inductive Clip where
  | niceSoundPath
  | badSoundPath
deriving DecidableEq

/-- What the program does to the outside world, in program order. -/
inductive Effect where
  | printMsg (str : String)
  | playSound (path : Clip)
  | outputOn (pinNumber : Nat)
  | outputOff (pinNumber : Nat)
deriving DecidableEq

/-- The value of `#define DIODEPIN 22`. -/
def DIODEPIN : Nat := 22

/-- The C expression `1 << pin` as it enters a `uint32_t` operation: bit `pin`
of a 32-bit word.  C leaves the shift open for `pin ≥ 32`; here the bits from
32 on are dropped, so the mask is then 0. -/
def pinMask (pin : Nat) : Nat := (1 <<< pin) % 4294967296

/-- Conversion of an `int` to `uint32_t`, as in `uint32_t ^ int`. -/
def toU32 (i : Int) : Nat := (i % 4294967296).toNat

/-! ## Sensors -/

/-- The test `sel_reg &= 1 << pin; if (!sel_reg)` of `anythingPressed`: the
level bit of the pin is 0, which is how a pressed button reads. -/
def levelLow (sel_reg pin : Nat) : Bool := (sel_reg &&& pinMask pin) == 0

/-- The function `anythingPressed`; `r1 r2 r3` are the three reads of the level register. -/
def anythingPressed (butts : buttons) (r1 r2 r3 : Nat) : Bool :=
  if levelLow r1 butts.b1 then true
  else if levelLow r2 butts.b2 then true
  else if levelLow r3 butts.b3 then true
  else false

/-- The function `ifStrummed`: `!(level_reg & (1 << DIODEPIN))`. -/
def ifStrummed (level_reg : Nat) : Bool := (level_reg &&& pinMask DIODEPIN) == 0

/-- The C expression `(lvl_reg & (1 << pin)) >> pin` of `checkButtons`. -/
def laneLevel (lvl_reg pin : Nat) : Nat := (lvl_reg &&& pinMask pin) >>> pin

/-- The function `checkButtons`; `lvl1 lvl2 lvl3` are its three reads of
`GPLEV(0)`.  A lane fails when `level ^ status` is zero. -/
def checkButtons (lvl1 lvl2 lvl3 : Nat) (intervalCounter : Int) (butts : buttons)
    (song : Int → row) : Bool :=
  if (laneLevel lvl1 butts.b1 ^^^ toU32 (song intervalCounter).status1) = 0 then false
  else if (laneLevel lvl2 butts.b2 ^^^ toU32 (song intervalCounter).status2) = 0 then false
  else if (laneLevel lvl3 butts.b3 ^^^ toU32 (song intervalCounter).status3) = 0 then false
  else true

/-! ## Display -/

/-- The `if (flag) outputOn(pin) else outputOff(pin)` of `updateLEDs`. -/
def setLED (flag : Int) (pin : Nat) : Effect :=
  if flag ≠ 0 then Effect.outputOn pin else Effect.outputOff pin

/-- The function `updateLEDs`. -/
def updateLEDs (LEDs : ledPins) (song : Int → row) (intervalCounter : Int) : List Effect :=
  if intervalCounter = 0 then
    [setLED (song 0).status1 LEDs.led21,
     setLED (song 0).status2 LEDs.led22,
     setLED (song 0).status3 LEDs.led23]
  else
    [setLED (song intervalCounter).status1 LEDs.led21,
     setLED (song intervalCounter).status2 LEDs.led22,
     setLED (song intervalCounter).status3 LEDs.led23,
     setLED (song (intervalCounter - 1)).status1 LEDs.led11,
     setLED (song (intervalCounter - 1)).status2 LEDs.led12,
     setLED (song (intervalCounter - 1)).status3 LEDs.led13]

/-- The function `setAllOff`. -/
def setAllOff (LEDs : ledPins) : List Effect :=
  [Effect.outputOff LEDs.led11, Effect.outputOff LEDs.led12, Effect.outputOff LEDs.led13,
   Effect.outputOff LEDs.led21, Effect.outputOff LEDs.led22, Effect.outputOff LEDs.led23]

/-! ## The round loop of `main` -/

/-- The variables of `main` that the round loop reads and never writes. -/
structure Setup where
  INTERVAL_TIME : Int
  MAX_INTERVALS : Int
  butts : buttons
  LEDs : ledPins
  song : Int → row

/-- The variables of `main` that the round loop writes. -/
structure RoundState where
  intervalCounter : Int
  correct : Int
  gotItRight : Bool
  currentTime : Int
deriving DecidableEq

/-- Everything one pass through the round loop reads from the outside:
the level register as `ifStrummed` reads it, the three reads of
`checkButtons` (used when it is called), `time(NULL)` in the deadline test
and `time(NULL)` when the deadline is reset (used at a boundary). -/
structure Poll where
  strumLevel : Nat
  lvl1 : Nat
  lvl2 : Nat
  lvl3 : Nat
  timeAtCheck : Int
  timeAtReset : Int
deriving DecidableEq

/-- The state in which `main` enters `while (intervalCounter < MAX_INTERVALS)`. -/
def roundStart (now : Int) : RoundState :=
  { intervalCounter := 0, correct := 0, gotItRight := false, currentTime := now }

/-- The loop condition `intervalCounter < MAX_INTERVALS`. -/
def roundGoesOn (g : Setup) (s : RoundState) : Bool :=
  decide (s.intervalCounter < g.MAX_INTERVALS)

/-- The condition `intervalCounter > 0 && checkButtons(gpio, intervalCounter-1, butts, song)`
under `if (ifStrummed(gpio))`: this pass sets `gotItRight`. -/
def strumHit (g : Setup) (s : RoundState) (p : Poll) : Bool :=
  ifStrummed p.strumLevel &&
    (decide (s.intervalCounter > 0) &&
      checkButtons p.lvl1 p.lvl2 p.lvl3 (s.intervalCounter - 1) g.butts g.song)

/-- The condition `time(NULL)-currentTime >= INTERVAL_TIME`: the interval is over. -/
def intervalOver (g : Setup) (s : RoundState) (p : Poll) : Bool :=
  decide (p.timeAtCheck - s.currentTime ≥ g.INTERVAL_TIME)

/-- One pass through the body of the round loop: the next state and the
effects of the pass. -/
def roundCycle (g : Setup) (s : RoundState) (p : Poll) : RoundState × List Effect :=
  let strumLog := if ifStrummed p.strumLevel then [Effect.printMsg "Laser Strummed"] else []
  let gotItRight := if strumHit g s p then true else s.gotItRight
  if intervalOver g s p then
    let outcome :=
      if gotItRight then
        [Effect.printMsg "Correct Response", Effect.playSound Clip.niceSoundPath]
      else if s.intervalCounter > 0 then
        [Effect.printMsg "Incorrect Response", Effect.playSound Clip.badSoundPath]
      else
        [Effect.printMsg "Incorrect Response"]
    ({ intervalCounter := s.intervalCounter + 1,
       correct := if gotItRight then s.correct + 1 else s.correct,
       gotItRight := false,
       currentTime := p.timeAtReset },
     strumLog ++ outcome ++ updateLEDs g.LEDs g.song (s.intervalCounter + 1))
  else
    ({ s with gotItRight := gotItRight }, strumLog)

/-- The round loop run on a finite stream of polls: it stops when the loop
condition fails or the stream ends.  The result is the state reached. -/
def roundLoop (g : Setup) : RoundState → List Poll → RoundState
  | s, [] => s
  | s, p :: ps => if roundGoesOn g s then roundLoop g (roundCycle g s p).1 ps else s

/-- The passes the round loop executes on a stream of polls, each with the
state in which it starts. -/
def roundTrace (g : Setup) : RoundState → List Poll → List (RoundState × Poll)
  | _, [] => []
  | s, p :: ps =>
    if roundGoesOn g s then (s, p) :: roundTrace g (roundCycle g s p).1 ps else []

/-- The effects of the round loop on a stream of polls. -/
def roundEffects (g : Setup) : RoundState → List Poll → List Effect
  | _, [] => []
  | s, p :: ps =>
    if roundGoesOn g s then (roundCycle g s p).2 ++ roundEffects g (roundCycle g s p).1 ps
    else []

/-- The clips among the effects of a pass that starts at interval index `k`. -/
def clipsOf (k : Int) (es : List Effect) : List (Int × Clip) :=
  es.filterMap fun e =>
    match e with
    | Effect.playSound c => some (k, c)
    | _ => none

/-- The clips the round loop plays, each with the index of the interval at
whose boundary it is played. -/
def clipLog (g : Setup) (s : RoundState) (ps : List Poll) : List (Int × Clip) :=
  (roundTrace g s ps).flatMap fun sp => clipsOf sp.1.intervalCounter (roundCycle g sp.1 sp.2).2

/-- The button levels of a pass exactly match a note row: on each lane the
button reads pressed if and only if the lane flag is 1. -/
def buttonsMatch (butts : buttons) (p : Poll) (r : row) : Prop :=
  (levelLow p.lvl1 butts.b1 = true ↔ r.status1 = 1) ∧
  (levelLow p.lvl2 butts.b2 = true ↔ r.status2 = 1) ∧
  (levelLow p.lvl3 butts.b3 = true ↔ r.status3 = 1)

instance (butts : buttons) (p : Poll) (r : row) : Decidable (buttonsMatch butts p r) := by
  unfold buttonsMatch
  infer_instance

/-- The three flags of a row are each 0 or 1. -/
def flagsAreBits (r : row) : Prop :=
  (r.status1 = 0 ∨ r.status1 = 1) ∧ (r.status2 = 0 ∨ r.status2 = 1) ∧
  (r.status3 = 0 ∨ r.status3 = 1)

/-- The clips of a round without any strum that starts at interval `k` and has
`n` boundaries to go: none at interval 0, the "incorrect" clip at each other one. -/
def missClips (k : Int) : Nat → List (Int × Clip)
  | 0 => []
  | n + 1 => (if 0 < k then [(k, Clip.badSoundPath)] else []) ++ missClips (k + 1) n

/-! ## The score log -/

/-- A file system: the characters of the file at a path, when the file exists. -/
abbrev Files := String → Option (List Char)

/-- The path `updateScore` opens, whatever file name it is given. -/
def scoreLogPath : String := "/home/pi/score.log"

/-- Opening a file in mode `"a"`, writing `text` and closing it: the file is
created when it does not exist, and `text` goes after what it holds. -/
def appendFile (fs : Files) (path : String) (text : List Char) : Files :=
  fun q => if q = path then some ((fs q).getD [] ++ text) else fs q

/-- The text `fprintf(file, "%s : %s : %s\n\n", time, programName, str)` of the
macro `PRINT_MSG`; `time` is what `getTime` has put in the buffer. -/
def PRINT_MSG (time programName str : List Char) : List Char :=
  time ++ " : ".toList ++ programName ++ " : ".toList ++ str ++ ['\n', '\n']

/-- The integer part of the decimal logarithm of a positive number, computed
by dividing by 10 at most `fuel` times; `fuel = x` is enough. -/
def log10Floor : Nat → Nat → Nat
  | 0, _ => 0
  | fuel + 1, x => if x < 10 then 0 else log10Floor fuel (x / 10) + 1

/-- The value of `int n = log10(score) + 1` in `updateScore`, for a score
that passed the range check: the number of decimal digits of a positive
score.  For score 0 the C expression converts minus infinity to `int`, which
the language leaves open; `nZero` stands for whatever that gives. -/
def digitCount (score nZero : Int) : Int :=
  if score = 0 then nZero else (log10Floor score.toNat score.toNat : Int) + 1

/-- The character `tempScore % 10 + '0'`. -/
def digitChar (tempScore : Int) : Char := Char.ofNat (tempScore.tmod 10 + 48).toNat

/-- The loop of `updateScore` that fills `scoreStr`: first `i = 1`, then `i = 0`. -/
def scoreStr (score n : Int) : List Char :=
  let c1 := if 1 < 2 - n then '0' else digitChar score
  let tempScore := if 1 < 2 - n then score else score.tdiv 10
  let c0 := if 0 < 2 - n then '0' else digitChar tempScore
  [c0, c1]

set_option linter.unusedVariables false in
/-- The function `updateScore`: the file system after the call and what it
writes to the error stream.  The parameter `scoreFileName` is not used by the
C function either: it opens `/home/pi/score.log`. -/
def updateScore (fs : Files) (scoreFileName : String) (score : Int)
    (programName time : List Char) (nZero : Int) : Files × List String :=
  if score < 0 ∨ score > 30 then (fs, ["Invalid Score"])
  else
    (appendFile fs scoreLogPath
      (PRINT_MSG time programName (scoreStr score (digitCount score nZero))), [])

/-- The C `getc` at position `pos` of a file: the character, or `EOF` (-1)
at the end of the file. -/
def getc (content : List Char) (pos : Nat) : Int :=
  match content.get? pos with
  | some c => (c.toNat : Int)
  | none => -1

/-- The function `getPreviousScore`.  `none` stands for the call of `fseek`
on the null pointer that `fopen` returns for a missing file, made before the
test `if (scoreFile)`.  `fseek(scoreFile, -4, SEEK_END)` fails on a file of
fewer than 4 characters and leaves the position at 0. -/
def getPreviousScore (fs : Files) (scoreFileName : String) : Option Int :=
  match fs scoreFileName with
  | none => none
  | some content =>
    let pos := if 4 ≤ content.length then content.length - 4 else 0
    let score1 := 0 * 10 + (getc content pos - 48)
    let score2 := score1 * 10 + (getc content (pos + 1) - 48)
    some score2

/-! ## Song selection and loading -/

/-- The three songs of `assignSong`. -/
inductive Tier where
  | Easy
  | Medium
  | Hard
deriving DecidableEq

/-- The file `assignSong` opens for a tier. -/
def songPath : Tier → String
  | Tier.Easy => "/home/pi/easySong.log"
  | Tier.Medium => "/home/pi/medSong.log"
  | Tier.Hard => "/home/pi/hardSong.log"

/-- The `if / else if / else` of `assignSong` that picks the song from the
previous score and the two thresholds. -/
def chooseTier (score MAX_INTERVALS : Int) : Tier :=
  let threshold1 := MAX_INTERVALS.tdiv 3
  let threshold2 := 2 * threshold1
  if score < threshold1 then Tier.Easy
  else if score ≥ threshold1 ∧ score < threshold2 then Tier.Medium
  else Tier.Hard

/-- The characters `fgets` takes from a stream when the buffer has room for
`room` of them: up to and with the first newline. -/
def readLine : Nat → List Char → List Char × List Char
  | 0, stream => ([], stream)
  | _ + 1, [] => ([], [])
  | room + 1, c :: stream =>
    if c = '\n' then ([c], stream)
    else ((readLine room stream).1.cons c, (readLine room stream).2)

/-- The C `fgets(buffer, bufferSize, file)` on the rest of a file: `none` at
the end of the file, else the new buffer (the characters read, a null
character, then the old content of the buffer) and the rest of the file. -/
def fgets (buffer : List Char) (bufferSize : Nat) (stream : List Char) :
    Option (List Char × List Char) :=
  if stream = [] then none
  else
    let line := (readLine (bufferSize - 1) stream).1
    some (line ++ [Char.ofNat 0] ++ buffer.drop (line.length + 1),
      (readLine (bufferSize - 1) stream).2)

/-- The C expression `buffer[j] - '0'`. -/
def statusAt (buffer : List Char) (j : Nat) : Int := ((buffer.getD j (Char.ofNat 0)).toNat : Int) - 48

/-- The loading loop of `assignSong` with `todo` rounds of the `for` left:
it stops when `fgets` reaches the end of the file. -/
def loadRows : Nat → Int → List Char → List Char → (Int → row) → (Int → row)
  | 0, _, _, _, song => song
  | todo + 1, intervalCount, buffer, stream, song =>
    match fgets buffer 7 stream with
    | none => song
    | some (buffer1, stream1) =>
      loadRows todo (intervalCount + 1) buffer1 stream1
        (fun k => if k = intervalCount then
            { status1 := statusAt buffer1 0, status2 := statusAt buffer1 2,
              status3 := statusAt buffer1 4 }
          else song k)

/-- What `assignSong` leaves behind: the tier it announces and the song
array, `none` when `fgets` is called on the null pointer of a missing song file. -/
structure Assigned where
  tier : Tier
  song : Option (Int → row)

/-- The function `assignSong`; `buffer` is the content of its line buffer
before the first `fgets`.  `none` when `getPreviousScore` does not return. -/
def assignSong (fs : Files) (song : Int → row) (scoreFileName : String)
    (MAX_INTERVALS : Int) (buffer : List Char) : Option Assigned :=
  match getPreviousScore fs scoreFileName with
  | none => none
  | some score =>
    let tier := chooseTier score MAX_INTERVALS
    some
      { tier := tier,
        song :=
          if MAX_INTERVALS ≤ 0 then some song
          else
            match fs (songPath tier) with
            | none => none
            | some stream => some (loadRows MAX_INTERVALS.toNat 0 buffer stream song) }

/-! ## The LED pins as the effects leave them -/

/-- The level of the output pins after one effect: `outputOn` writes
`1 << pinNumber` to `GPSET(0)`, which raises the pins whose bit is 1, and
`outputOff` writes it to `GPCLR(0)`, which lowers them. -/
def applyEffect (level : Nat → Bool) (e : Effect) : Nat → Bool :=
  match e with
  | Effect.outputOn pinNumber => fun q => level q || (pinMask pinNumber).testBit q
  | Effect.outputOff pinNumber => fun q => level q && !(pinMask pinNumber).testBit q
  | _ => level

/-- The level of the output pins after a list of effects, from the levels `level`. -/
def pinLevels (es : List Effect) (level : Nat → Bool) : Nat → Bool :=
  es.foldl applyEffect level

/-- The three LEDs on pins `p1 p2 p3` show a row: each is lit exactly when
the flag of its lane is set (not 0). -/
def rowShown (level : Nat → Bool) (p1 p2 p3 : Nat) (r : row) : Prop :=
  level p1 = decide (r.status1 ≠ 0) ∧ level p2 = decide (r.status2 ≠ 0) ∧
  level p3 = decide (r.status3 ≠ 0)

instance (level : Nat → Bool) (p1 p2 p3 : Nat) (r : row) :
    Decidable (rowShown level p1 p2 p3 r) := by
  unfold rowShown
  infer_instance

/-- The six LED pins are different pins of the first 32, the ones `GPSET(0)`
and `GPCLR(0)` drive. -/
def validPins (LEDs : ledPins) : Prop :=
  [LEDs.led11, LEDs.led12, LEDs.led13, LEDs.led21, LEDs.led22, LEDs.led23].Nodup ∧
  ∀ pin ∈ [LEDs.led11, LEDs.led12, LEDs.led13, LEDs.led21, LEDs.led22, LEDs.led23], pin < 32

instance (LEDs : ledPins) : Decidable (validPins LEDs) := by
  unfold validPins
  infer_instance

/-- The function `setAllOn`. -/
def setAllOn (LEDs : ledPins) : List Effect :=
  [Effect.outputOn LEDs.led11, Effect.outputOn LEDs.led12, Effect.outputOn LEDs.led13,
   Effect.outputOn LEDs.led21, Effect.outputOn LEDs.led22, Effect.outputOn LEDs.led23]

/-- The LED writes of the function `finishedSong`. -/
def finishedSong (LEDs : ledPins) : List Effect :=
  setAllOn LEDs ++ setAllOff LEDs ++ setAllOn LEDs ++ setAllOff LEDs ++
    setAllOn LEDs ++ setAllOff LEDs ++ setAllOn LEDs ++ setAllOff LEDs

/-! ## One pass through the `while (1)` of `main` -/

/-- The pins `main` assigns to the buttons. -/
def mainButts : buttons := { b1 := 17, b2 := 10, b3 := 11 }

/-- The pins `main` assigns to the LEDs. -/
def mainLEDs : ledPins :=
  { led11 := 4, led12 := 5, led13 := 6, led21 := 7, led22 := 8, led23 := 9 }

/-- The three reads of the level register in one call of `anythingPressed`. -/
structure ButtonPoll where
  r1 : Nat
  r2 : Nat
  r3 : Nat
deriving DecidableEq

/-- The loop `while (anythingPressed(butts, gpio)) usleep(500000);` on a
finite stream of samples: the samples left when the loop exits, `none` when
the stream ends with the loop still waiting. -/
def waitForRelease (butts : buttons) : List ButtonPoll → Option (List ButtonPoll)
  | [] => none
  | w :: ws =>
    if anythingPressed butts w.r1 w.r2 w.r3 then waitForRelease butts ws else some ws

/-- What `main` does from `setAllOff` to the entry of the round loop: the
state in which the round loop is entered and the effects up to there, `none`
when the wait for the buttons does not end on the samples given. -/
def enterPlaying (g : Setup) (waits : List ButtonPoll) (now : Int) :
    Option (RoundState × List Effect) :=
  match waitForRelease g.butts waits with
  | none => none
  | some _ =>
    some (roundStart now,
      setAllOff g.LEDs ++ [Effect.printMsg "Waiting for Input"] ++
        updateLEDs g.LEDs g.song 0 ++ [Effect.printMsg "Game Comencing"])

/-- Why a pass of `main` does not reach its end on the inputs given. -/
inductive Stuck where
  | scoreLogMissing
  | songFileMissing
  | buttonsHeld
  | roundUnfinished
deriving DecidableEq

/-- Everything one pass of `main` reads from the outside. -/
structure PassInput where
  buffer : List Char
  waits : List ButtonPoll
  now : Int
  polls : List Poll
  programName : List Char
  time : List Char
  nZero : Int

/-- What one pass of `main` leaves behind. -/
structure PassResult where
  tier : Tier
  song : Int → row
  final : RoundState
  effects : List Effect
  files : Files

/-- The file name `main` passes to `updateScore`; it starts with the
character U+202A. -/
def mainScoreName : String := "\u202a/home/pi/score.log"

/-- One pass through the body of `while (1)` in `main`, from `assignSong` to
`finishedSong`, with the pins `main` uses. -/
def mainPass (INTERVAL_TIME MAX_INTERVALS : Int) (fs : Files) (song : Int → row)
    (inp : PassInput) : Except Stuck PassResult :=
  match assignSong fs song "/home/pi/score.log" MAX_INTERVALS inp.buffer with
  | none => Except.error Stuck.scoreLogMissing
  | some a =>
    match a.song with
    | none => Except.error Stuck.songFileMissing
    | some song1 =>
      let g : Setup :=
        { INTERVAL_TIME := INTERVAL_TIME, MAX_INTERVALS := MAX_INTERVALS,
          butts := mainButts, LEDs := mainLEDs, song := song1 }
      match enterPlaying g inp.waits inp.now with
      | none => Except.error Stuck.buttonsHeld
      | some (s0, e0) =>
        if roundGoesOn g (roundLoop g s0 inp.polls) then Except.error Stuck.roundUnfinished
        else
          Except.ok
            { tier := a.tier,
              song := song1,
              final := roundLoop g s0 inp.polls,
              effects := e0 ++ roundEffects g s0 inp.polls ++
                [Effect.printMsg "Song completed and score updated"] ++ finishedSong mainLEDs,
              files := (updateScore fs mainScoreName (roundLoop g s0 inp.polls).correct
                inp.programName inp.time inp.nZero).1 }

/-- The start of `main`: the score 0 is written to the score log, then the
first pass runs. -/
def mainFirstPass (INTERVAL_TIME MAX_INTERVALS : Int) (fs : Files) (song : Int → row)
    (inp : PassInput) : Except Stuck PassResult :=
  mainPass INTERVAL_TIME MAX_INTERVALS
    (updateScore fs mainScoreName 0 inp.programName inp.time inp.nZero).1 song inp

/-! ## Concrete rounds -/

/-- A song whose rows alternate all flags set (even index) and all flags clear. -/
def alternatingSong (k : Int) : row :=
  if k % 2 = 0 then { status1 := 1, status2 := 1, status3 := 1 }
  else { status1 := 0, status2 := 0, status3 := 0 }

/-- A round of `n` intervals of one second on the alternating song. -/
def alternatingSetup (n : Int) : Setup :=
  { INTERVAL_TIME := 1, MAX_INTERVALS := n, butts := mainButts, LEDs := mainLEDs,
    song := alternatingSong }

/-- Level register with the beam intact (bit 22 set) and all three buttons released. -/
def idleLevel : Nat := 4194304 + 131072 + 2048 + 1024

/-- A pass at time `t` that ends the interval with the beam intact. -/
def idleBoundary (t : Int) : Poll :=
  { strumLevel := idleLevel, lvl1 := idleLevel, lvl2 := idleLevel, lvl3 := idleLevel,
    timeAtCheck := t, timeAtReset := t }

/-- A pass at time `t` that ends the interval, with the beam broken and the
button pins at `lvl`. -/
def strumBoundary (lvl : Nat) (t : Int) : Poll :=
  { strumLevel := lvl, lvl1 := lvl, lvl2 := lvl, lvl3 := lvl,
    timeAtCheck := t, timeAtReset := t }

/-- Nine passes starting at time 0: interval 0 ends idle, every later
interval has one pass with a strum and the buttons of the row before
(all pressed reads 0, all released reads 134144). -/
def nineHits : List Poll :=
  [idleBoundary 1, strumBoundary 0 2, strumBoundary 134144 3, strumBoundary 0 4,
   strumBoundary 134144 5, strumBoundary 0 6, strumBoundary 134144 7, strumBoundary 0 8,
   strumBoundary 134144 9]

/-- Three passes starting at time 0, each the boundary of its interval, none
with a strum. -/
def idleRound : List Poll := [idleBoundary 1, idleBoundary 2, idleBoundary 3]

/-! ## Concrete score logs -/

/-- A file system without any file. -/
def noFiles : Files := fun _ => none

/-- A time stamp as `getTime` formats it. -/
def sampleTime : List Char := "10-30-2026  12:00:00.".toList

/-- A program name. -/
def sampleName : List Char := "GuitarZero".toList

/-- A file system whose score log holds one record, of the score `score`. -/
def logWith (score : Int) : Files :=
  (updateScore noFiles scoreLogPath score sampleName sampleTime 0).1

/-- A file system whose score log exists and is empty. -/
def emptyLog : Files := fun q => if q = scoreLogPath then some [] else none

/-- The note sequence `song` with the row at index `k` replaced by `r`. -/
def withRow (song : Int → row) (k : Int) (r : row) : Int → row :=
  fun i => if i = k then r else song i

/-- The value of `intervalCount` when the loading loop of `assignSong` ends,
with `todo` rounds of the `for` left at the start: the number of rows stored. -/
def loadCount : Nat → List Char → List Char → Nat
  | 0, _, _ => 0
  | todo + 1, buffer, stream =>
    match fgets buffer 7 stream with
    | none => 0
    | some (buffer1, stream1) => loadCount todo buffer1 stream1 + 1

/-- A file system with the score log of one record of score 0 and an easy
song file of one line. -/
def oneLineSong : Files :=
  fun q => if q = songPath Tier.Easy then some "1 0 1\n".toList else logWith 0 q

/-- The inputs of a pass of `main` in which no button is held at the first
sample and the polls are those of `idleRound`. -/
def idlePass : PassInput :=
  { buffer := [], waits := [{ r1 := idleLevel, r2 := idleLevel, r3 := idleLevel }],
    now := 0, polls := idleRound, programName := sampleName, time := sampleTime, nZero := 0 }

/-- The sensor and button samples of a pass: the four reads of the level register. -/
def sensorsOf (p : Poll) : Nat × Nat × Nat × Nat := (p.strumLevel, p.lvl1, p.lvl2, p.lvl3)

/-- The condition `strumHit` as a function of the interval index and of the
sensor and button samples of the pass. -/
def hitOn (butts : buttons) (song : Int → row) (k : Int) (x : Nat × Nat × Nat × Nat) : Bool :=
  ifStrummed x.1 &&
    (decide (k > 0) && checkButtons x.2.1 x.2.2.1 x.2.2.2 (k - 1) butts song)

/-- The sensor and button samples of the passes of interval `k` of a run, in order. -/
def intervalSamples (g : Setup) (s : RoundState) (ps : List Poll) (k : Int) :
    List (Nat × Nat × Nat × Nat) :=
  ((roundTrace g s ps).filter fun sp => decide (sp.1.intervalCounter = k)).map
    fun sp => sensorsOf sp.2

/-- A value that a C `int` of 32 bits can hold. -/
def isInt32 (i : Int) : Prop := -2147483648 ≤ i ∧ i < 2147483648

instance (i : Int) : Decidable (isInt32 i) := by
  unfold isInt32
  infer_instance

/-- What a lane flag asks of the button of its lane, in the words of the
specification: flag 0 asks for the button released, flag 1 for the button
pressed, and any other value asks for nothing. -/
def laneDemand (lvl_reg pin : Nat) (flag : Int) : Prop :=
  if flag = 0 then levelLow lvl_reg pin = false
  else if flag = 1 then levelLow lvl_reg pin = true
  else True

instance (lvl_reg pin : Nat) (flag : Int) : Decidable (laneDemand lvl_reg pin flag) := by
  unfold laneDemand
  infer_instance

/-- A decimal digit character, `'0'` to `'9'`. -/
def isDigitChar (c : Char) : Prop := 48 ≤ c.toNat ∧ c.toNat ≤ 57

instance (c : Char) : Decidable (isDigitChar c) := by
  unfold isDigitChar
  infer_instance

/-- A line of a song file of the form `a b c` followed by a newline. -/
def songLine (t : Char × Char × Char) : List Char := [t.1, ' ', t.2.1, ' ', t.2.2, '\n']

/-- The row that a line `a b c` of digits stands for: the three digit values. -/
def rowOfLine (t : Char × Char × Char) : row :=
  { status1 := (t.1.toNat : Int) - 48, status2 := (t.2.1.toNat : Int) - 48,
    status3 := (t.2.2.toNat : Int) - 48 }

/-- A file system with the score log of one record of score 0 and an easy
song file of three lines. -/
def threeLineSong : Files :=
  fun q => if q = songPath Tier.Easy then some "1 0 1\n0 1 0\n1 1 1\n".toList else logWith 0 q

/-! ## The configuration file -/

/-- C `int` arithmetic that leaves the range of 32 bits, as two's complement
hardware does it: the result modulo `2 ^ 32` in `[-2 ^ 31, 2 ^ 31)`. -/
def wrapInt32 (x : Int) : Int := (x + 2147483648) % 4294967296 - 2147483648

/-- The function `readIntParam` on the characters of the buffer from
`buffer[*i]` on: the new value of `storageIntArr[*intInput]`, from the value
`value` it has, and the characters from the new `*i` on.  Beyond the list the
buffer counts as ended. -/
def readIntParam : List Char → Int → Int × List Char
  | [], value => (value, [])
  | c :: rest, value =>
    if c = Char.ofNat 0 then (value, c :: rest)
    else if 48 ≤ c.toNat ∧ c.toNat ≤ 57 then
      readIntParam rest (wrapInt32 (value * 10 + ((c.toNat : Int) - 48)))
    else readIntParam rest value

/-- The function `getSizeOfPathStr`: `temp` are the characters from
`buffer[tempIndex]` on, `i` the characters from `buffer[*i]` on; the result is
`size` and the characters from the new `*i` on. -/
def getSizeOfPathStr : List Char → Nat → List Char → Nat × List Char
  | [], size, i => (size, i)
  | c :: temp, size, i =>
    if c = Char.ofNat 0 ∨ c = '\n' then (size, i)
    else if c ≠ ' ' then getSizeOfPathStr temp (size + 1) (if size = 0 then i.drop 1 else i)
    else getSizeOfPathStr temp size i

/-- The function `readCharParam` on the characters from `buffer[*i]` on: the
string stored in `storageStrArr[*strInput]` and the characters from the new
`*i` on. -/
def readCharParam (i : List Char) : List Char × List Char :=
  ((getSizeOfPathStr i 0 i).2.take (getSizeOfPathStr i 0 i).1,
   (getSizeOfPathStr i 0 i).2.drop (getSizeOfPathStr i 0 i).1)

/-- The function `copyStr`: the characters of `copiedStr` up to its null terminator. -/
def copyStr (copiedStr : List Char) : List Char :=
  copiedStr.takeWhile fun c => decide (c ≠ Char.ofNat 0)

/-- The local arrays and counters of `readConfig`. -/
structure ParamArrays where
  intParamArr : Nat → Int
  strParamArr : Nat → Option (List Char)
  intInput : Nat
  strInput : Nat

/-- The arrays and counters as `readConfig` declares them: zeros and null pointers. -/
def noParams : ParamArrays :=
  { intParamArr := fun _ => 0, strParamArr := fun _ => none, intInput := 0, strInput := 0 }

/-- The loop `while (buffer[i] != 0)` of `readConfig` on the characters from
`buffer[i]` on, run for at most `fuel` rounds.  `none` when a fourth path
would be written past the end of `strParamArr`, and when the fuel runs out. -/
def scanParams : Nat → List Char → ParamArrays → Option ParamArrays
  | 0, _, _ => none
  | _ + 1, [], st => some st
  | fuel + 1, c :: rest, st =>
    if c = Char.ofNat 0 then some st
    else if c = '=' then
      if st.intInput < 3 then
        scanParams fuel (readIntParam rest (st.intParamArr st.intInput)).2
          { st with
            intParamArr := fun k =>
              if k = st.intInput then (readIntParam rest (st.intParamArr st.intInput)).1
              else st.intParamArr k,
            intInput := st.intInput + 1 }
      else if st.strInput < 3 then
        scanParams fuel (readCharParam rest).2
          { st with
            strParamArr := fun k =>
              if k = st.strInput then some (readCharParam rest).1 else st.strParamArr k,
            strInput := st.strInput + 1 }
      else none
    else scanParams fuel rest st

/-- The body of the loop over the lines in `readConfig`, on the buffer that
`fgets` has filled: a buffer that starts with `#` is skipped. -/
def readConfigLine (buffer : List Char) (st : ParamArrays) : Option ParamArrays :=
  if buffer.head? = some '#' then some st
  else scanParams (buffer.length + 1) buffer st

/-- The loop `while (fgets(buffer, bufferSize, configFile) != NULL)` of
`readConfig`, run for at most `fuel` rounds. -/
def readConfigLines : Nat → List Char → List Char → ParamArrays → Option ParamArrays
  | 0, _, _, _ => none
  | fuel + 1, buffer, stream, st =>
    match fgets buffer 500 stream with
    | none => some st
    | some (buffer1, stream1) =>
      match readConfigLine buffer1 st with
      | none => none
      | some st1 => readConfigLines fuel buffer1 stream1 st1

/-- The six variables that `readConfig` sets. -/
structure Config where
  timeoutTimer : Int
  intervalTime : Int
  MAX_INTERVALS : Int
  logFileName : List Char
  badSoundPath : List Char
  niceSoundPath : List Char
deriving DecidableEq

/-- The function `readConfig` on the content of the configuration file;
`buffer` is the content of its line buffer before the first `fgets`.  `none`
when a path is missing, so that `copyStr` is called on a null pointer, and
when a fourth path is read.  Every `fgets` that does not return `NULL` takes a
character, so the fuel, the length of the file plus one, is enough. -/
def readConfig (configFile : List Char) (buffer : List Char) : Option Config :=
  match readConfigLines (configFile.length + 1) buffer configFile noParams with
  | none => none
  | some st =>
    match st.strParamArr 0, st.strParamArr 1, st.strParamArr 2 with
    | some s0, some s1, some s2 =>
      some
        { timeoutTimer := st.intParamArr 0, intervalTime := st.intParamArr 1,
          MAX_INTERVALS := st.intParamArr 2, logFileName := copyStr s0,
          badSoundPath := copyStr s1, niceSoundPath := copyStr s2 }
    | _, _, _ => none

/-! ## The shape of a configuration file, in the words of the specification -/

/-- A line of a configuration file: a comment `#text`, a number line
`key = digits` or a path line `key = path`. -/
inductive ConfigLine where
  | comment (text : List Char)
  | number (key digits : List Char)
  | path (key value : List Char)
deriving DecidableEq

/-- The characters of a line, without its newline. -/
def ConfigLine.body : ConfigLine → List Char
  | ConfigLine.comment text => '#' :: text
  | ConfigLine.number key digits => key ++ " = ".toList ++ digits
  | ConfigLine.path key value => key ++ " = ".toList ++ value

/-- The characters of a line in the file: its body and a newline. -/
def ConfigLine.render (l : ConfigLine) : List Char := l.body ++ ['\n']

/-- The line is a number line or a path line: it does not start with `#`. -/
def ConfigLine.isParam : ConfigLine → Bool
  | ConfigLine.comment _ => false
  | _ => true

/-- The number that a string of decimal digits denotes, read after the digits
of `value`. -/
def decimalValue (digits : List Char) (value : Int) : Int :=
  digits.foldl (fun v c => v * 10 + ((c.toNat : Int) - 48)) value

/-- A key: no `=`, no newline, no null character, and no `#` in front. -/
def wellFormedKey (key : List Char) : Prop :=
  '=' ∉ key ∧ '\n' ∉ key ∧ Char.ofNat 0 ∉ key ∧ key.head? ≠ some '#'

/-- A line that `readConfig` takes whole: it fits the line buffer (at most 499
characters with the newline) and has no newline inside; a number line has a key,
decimal digits and a value that an `int` holds; a path line has a key and a
path without space and null character. -/
def ConfigLine.wellFormed : ConfigLine → Prop
  | ConfigLine.comment text => '\n' ∉ text ∧ text.length + 2 ≤ 499
  | ConfigLine.number key digits =>
    wellFormedKey key ∧ (∀ c ∈ digits, isDigitChar c) ∧
    decimalValue digits 0 < 2147483648 ∧ key.length + 3 + digits.length + 1 ≤ 499
  | ConfigLine.path key value =>
    wellFormedKey key ∧ ' ' ∉ value ∧ '\n' ∉ value ∧ Char.ofNat 0 ∉ value ∧
    key.length + 3 + value.length + 1 ≤ 499

instance (key : List Char) : Decidable (wellFormedKey key) := by
  unfold wellFormedKey
  infer_instance

instance (l : ConfigLine) : Decidable l.wellFormed := by
  cases l <;> unfold ConfigLine.wellFormed <;> infer_instance

/-- What a well-formed line does to the arrays of `readConfig` when the
numbers come first: a comment nothing, a number line stores its number at
`intInput`, a path line stores its path at `strInput`. -/
def applyLine (st : ParamArrays) : ConfigLine → ParamArrays
  | ConfigLine.comment _ => st
  | ConfigLine.number _ digits =>
    { st with
      intParamArr := fun k => if k = st.intInput then decimalValue digits 0
        else st.intParamArr k,
      intInput := st.intInput + 1 }
  | ConfigLine.path _ value =>
    { st with
      strParamArr := fun k => if k = st.strInput then some value else st.strParamArr k,
      strInput := st.strInput + 1 }

/-- The lines come in the order `readConfig` expects from the counters `a`
and `b` on: number lines while fewer than three numbers are read, path lines
after the third number and while fewer than three paths are read. -/
def linesInOrder : Nat → Nat → List ConfigLine → Prop
  | _, _, [] => True
  | a, b, ConfigLine.comment _ :: ls => linesInOrder a b ls
  | a, b, ConfigLine.number _ _ :: ls => a < 3 ∧ linesInOrder (a + 1) b ls
  | a, b, ConfigLine.path _ _ :: ls => a = 3 ∧ b < 3 ∧ linesInOrder a (b + 1) ls

/-! ## Lemmas on the sensors -/

theorem pinMask_eq (pin : Nat) : pinMask pin = if pin < 32 then 2 ^ pin else 0 := by
  unfold pinMask
  rw [Nat.one_shiftLeft]
  split
  · rename_i h
    apply Nat.mod_eq_of_lt
    calc 2 ^ pin < 2 ^ 32 := Nat.pow_lt_pow_right (by norm_num) h
      _ = 4294967296 := by norm_num
  · rename_i h
    have h32 : 32 ≤ pin := Nat.le_of_not_lt h
    obtain ⟨d, rfl⟩ := Nat.exists_eq_add_of_le h32
    rw [pow_add]
    norm_num

theorem laneLevel_eq (lvl pin : Nat) :
    laneLevel lvl pin = if levelLow lvl pin then 0 else 1 := by
  unfold laneLevel levelLow
  rw [pinMask_eq]
  split
  · rw [Nat.and_two_pow]
    cases h : lvl.testBit pin <;> simp [Nat.shiftRight_eq_div_pow]
  · simp

theorem toU32_zero : toU32 0 = 0 := by decide

theorem toU32_one : toU32 1 = 1 := by decide

theorem lane_ok_iff (lvl pin : Nat) (status : Int) (h : status = 0 ∨ status = 1) :
    ¬ (laneLevel lvl pin ^^^ toU32 status) = 0 ↔ (levelLow lvl pin = true ↔ status = 1) := by
  rw [laneLevel_eq]
  rcases h with h | h <;> subst h <;> cases levelLow lvl pin <;>
    simp [toU32_zero, toU32_one]

/-- On a row of 0/1 flags `checkButtons` holds exactly when the buttons match the row. -/
theorem checkButtons_eq_true_iff (p : Poll) (intervalCounter : Int)
    (butts : buttons) (song : Int → row) (hbits : flagsAreBits (song intervalCounter)) :
    checkButtons p.lvl1 p.lvl2 p.lvl3 intervalCounter butts song = true ↔
      buttonsMatch butts p (song intervalCounter) := by
  obtain ⟨h1, h2, h3⟩ := hbits
  unfold buttonsMatch
  rw [← lane_ok_iff p.lvl1 butts.b1 _ h1, ← lane_ok_iff p.lvl2 butts.b2 _ h2,
    ← lane_ok_iff p.lvl3 butts.b3 _ h3]
  unfold checkButtons
  split
  · rename_i h; simp [h]
  · rename_i h
    split
    · rename_i h'; simp [h']
    · rename_i h'
      split
      · rename_i h''; simp [h'']
      · rename_i h''; simp [h, h', h'']

/-! ## Lemmas on the round loop -/

/-- The state after a pass that is an interval boundary. -/
theorem roundCycle_over (g : Setup) (s : RoundState) (p : Poll)
    (h : intervalOver g s p = true) :
    (roundCycle g s p).1 =
      { intervalCounter := s.intervalCounter + 1,
        correct := if (strumHit g s p || s.gotItRight) = true then s.correct + 1 else s.correct,
        gotItRight := false,
        currentTime := p.timeAtReset } := by
  unfold roundCycle
  cases hh : strumHit g s p <;> cases hg : s.gotItRight <;> simp [h]

/-- The state after a pass within an interval. -/
theorem roundCycle_not_over (g : Setup) (s : RoundState) (p : Poll)
    (h : intervalOver g s p = false) :
    (roundCycle g s p).1 = { s with gotItRight := strumHit g s p || s.gotItRight } := by
  unfold roundCycle
  cases hh : strumHit g s p <;> cases hg : s.gotItRight <;> simp [h]

theorem roundCycle_counter (g : Setup) (s : RoundState) (p : Poll) :
    (roundCycle g s p).1.intervalCounter =
      if intervalOver g s p = true then s.intervalCounter + 1 else s.intervalCounter := by
  cases h : intervalOver g s p
  · simp [roundCycle_not_over g s p h]
  · simp [roundCycle_over g s p h]

theorem roundTrace_cons (g : Setup) (s : RoundState) (p : Poll) (ps : List Poll) :
    roundTrace g s (p :: ps) =
      if roundGoesOn g s = true then (s, p) :: roundTrace g (roundCycle g s p).1 ps else [] := rfl

theorem roundLoop_cons (g : Setup) (s : RoundState) (p : Poll) (ps : List Poll) :
    roundLoop g s (p :: ps) =
      if roundGoesOn g s = true then roundLoop g (roundCycle g s p).1 ps else s := rfl

/-- Every pass of the trace starts at an interval index at least the initial one. -/
theorem roundTrace_counter_ge (g : Setup) (ps : List Poll) :
    ∀ (s0 : RoundState) (sp : RoundState × Poll), sp ∈ roundTrace g s0 ps →
      s0.intervalCounter ≤ sp.1.intervalCounter := by
  induction ps with
  | nil => intro s0 sp h; simp [roundTrace] at h
  | cons p ps ih =>
    intro s0 sp h
    rw [roundTrace_cons] at h
    split at h
    · rcases List.mem_cons.mp h with h | h
      · subst h; exact le_refl _
      · have := ih _ _ h
        rw [roundCycle_counter] at this
        split at this <;> omega
    · simp at h

/-- Every pass of the trace starts with the loop condition true. -/
theorem roundTrace_goesOn (g : Setup) (ps : List Poll) :
    ∀ (s0 : RoundState) (sp : RoundState × Poll), sp ∈ roundTrace g s0 ps →
      roundGoesOn g sp.1 = true := by
  induction ps with
  | nil => intro s0 sp h; simp [roundTrace] at h
  | cons p ps ih =>
    intro s0 sp h
    rw [roundTrace_cons] at h
    split at h
    · rename_i hg
      rcases List.mem_cons.mp h with h | h
      · subst h; exact hg
      · exact ih _ _ h
    · simp at h

/-- The flag `gotItRight` after the strum test of a boundary pass of the
trace: it is set exactly when it was set in the initial state and the pass
belongs to the initial interval, or a pass of the same interval had a hit. -/
theorem roundTrace_got_iff (g : Setup) (ps : List Poll) :
    ∀ (s0 : RoundState) (sp : RoundState × Poll), sp ∈ roundTrace g s0 ps →
      intervalOver g sp.1 sp.2 = true →
      ((strumHit g sp.1 sp.2 || sp.1.gotItRight) = true ↔
        (sp.1.intervalCounter = s0.intervalCounter ∧ s0.gotItRight = true) ∨
        ∃ sq ∈ roundTrace g s0 ps, sq.1.intervalCounter = sp.1.intervalCounter ∧
          strumHit g sq.1 sq.2 = true) := by
  induction ps with
  | nil => intro s0 sp h; simp [roundTrace] at h
  | cons p ps ih =>
    intro s0 sp h hover
    rw [roundTrace_cons] at h ⊢
    split at h
    swap
    · simp at h
    rename_i hgo
    simp only [hgo, if_true]
    rcases List.mem_cons.mp h with h | h
    · subst h
      simp only [Bool.or_eq_true]
      constructor
      · rintro (hh | hg)
        · exact Or.inr ⟨(s0, p), List.mem_cons_self _ _, rfl, hh⟩
        · exact Or.inl ⟨trivial, hg⟩
      · rintro (⟨_, hg⟩ | ⟨sq, hsq, hic, hh⟩)
        · exact Or.inr hg
        · rcases List.mem_cons.mp hsq with hsq | hsq
          · subst hsq; exact Or.inl hh
          · have hge := roundTrace_counter_ge g ps _ _ hsq
            rw [roundCycle_counter, hover] at hge
            simp only [if_true] at hge hic
            omega
    · have hge := roundTrace_counter_ge g ps _ _ h
      rw [ih _ sp h hover]
      cases hov0 : intervalOver g s0 p
      · rw [roundCycle_not_over g s0 p hov0]
        simp only [Bool.or_eq_true]
        constructor
        · rintro (⟨hic, hh | hg⟩ | ⟨sq, hsq, hic, hh⟩)
          · exact Or.inr ⟨(s0, p), List.mem_cons_self _ _, hic.symm, hh⟩
          · exact Or.inl ⟨hic, hg⟩
          · exact Or.inr ⟨sq, List.mem_cons_of_mem _ hsq, hic, hh⟩
        · rintro (⟨hic, hg⟩ | ⟨sq, hsq, hic, hh⟩)
          · exact Or.inl ⟨hic, Or.inr hg⟩
          · rcases List.mem_cons.mp hsq with hsq | hsq
            · subst hsq; exact Or.inl ⟨hic.symm, Or.inl hh⟩
            · exact Or.inr ⟨sq, hsq, hic, hh⟩
      · rw [roundCycle_counter, hov0] at hge
        simp only [if_true] at hge
        rw [roundCycle_over g s0 p hov0]
        constructor
        · rintro (⟨_, hg⟩ | ⟨sq, hsq, hic, hh⟩)
          · simp at hg
          · exact Or.inr ⟨sq, List.mem_cons_of_mem _ hsq, hic, hh⟩
        · rintro (⟨hic, _⟩ | ⟨sq, hsq, hic, hh⟩)
          · omega
          · rcases List.mem_cons.mp hsq with hsq | hsq
            · subst hsq; simp only at hic; omega
            · exact Or.inr ⟨sq, hsq, hic, hh⟩

theorem roundCycle_correct (g : Setup) (s : RoundState) (p : Poll) :
    (roundCycle g s p).1.correct =
      if intervalOver g s p = true ∧ (strumHit g s p || s.gotItRight) = true
      then s.correct + 1 else s.correct := by
  cases h : intervalOver g s p
  · simp [roundCycle_not_over g s p h]
  · rw [roundCycle_over g s p h]
    simp

theorem roundLoop_stop (g : Setup) (s : RoundState) (ps : List Poll)
    (h : roundGoesOn g s = false) : roundLoop g s ps = s := by
  cases ps with
  | nil => rfl
  | cons p ps => rw [roundLoop_cons, h]; simp

theorem roundLoop_append (g : Setup) (ps qs : List Poll) :
    ∀ s : RoundState, roundLoop g s (ps ++ qs) = roundLoop g (roundLoop g s ps) qs := by
  induction ps with
  | nil => intro s; rfl
  | cons p ps ih =>
    intro s
    rw [List.cons_append, roundLoop_cons, roundLoop_cons]
    cases h : roundGoesOn g s
    · simp [roundLoop_stop g s qs h]
    · simp [ih]

/-- The interval index never decreases along the round loop. -/
theorem roundLoop_counter_ge (g : Setup) (ps : List Poll) :
    ∀ s : RoundState, s.intervalCounter ≤ (roundLoop g s ps).intervalCounter := by
  induction ps with
  | nil => intro s; exact le_refl _
  | cons p ps ih =>
    intro s
    rw [roundLoop_cons]
    split
    · have h1 := ih (roundCycle g s p).1
      rw [roundCycle_counter] at h1
      split at h1 <;> omega
    · exact le_refl _

/-- The invariant of the round loop. -/
theorem roundLoop_invariant (g : Setup) (ps : List Poll) :
    ∀ s : RoundState,
      0 ≤ s.correct ∧ s.correct ≤ s.intervalCounter ∧ s.intervalCounter ≤ g.MAX_INTERVALS →
      0 ≤ (roundLoop g s ps).correct ∧
      (roundLoop g s ps).correct ≤ (roundLoop g s ps).intervalCounter ∧
      (roundLoop g s ps).intervalCounter ≤ g.MAX_INTERVALS := by
  induction ps with
  | nil => intro s h; exact h
  | cons p ps ih =>
    intro s h
    rw [roundLoop_cons]
    split
    · rename_i hgo
      have hlt : s.intervalCounter < g.MAX_INTERVALS := by
        simpa [roundGoesOn] using hgo
      apply ih
      rw [roundCycle_counter, roundCycle_correct]
      split <;> split <;> simp_all <;> omega
    · exact h

theorem strumHit_of_counter_zero (g : Setup) (s : RoundState) (p : Poll)
    (h : s.intervalCounter = 0) : strumHit g s p = false := by
  unfold strumHit
  simp [h]

/-- The final score when every interval from the current one on, except
interval 0, gets a hit. -/
theorem roundLoop_all_hit (g : Setup) (ps : List Poll) :
    ∀ s0 : RoundState, 0 ≤ s0.intervalCounter → s0.intervalCounter ≤ g.MAX_INTERVALS →
      (s0.intervalCounter = 0 → s0.gotItRight = false) →
      (∀ k : Int, 1 ≤ k → s0.intervalCounter ≤ k → k < g.MAX_INTERVALS →
        (k = s0.intervalCounter ∧ s0.gotItRight = true) ∨
        ∃ sq ∈ roundTrace g s0 ps, sq.1.intervalCounter = k ∧ strumHit g sq.1 sq.2 = true) →
      roundGoesOn g (roundLoop g s0 ps) = false →
      (roundLoop g s0 ps).correct =
        s0.correct + (g.MAX_INTERVALS - s0.intervalCounter) -
          (if s0.intervalCounter = 0 ∧ 0 < g.MAX_INTERVALS then 1 else 0) := by
  induction ps with
  | nil =>
    intro s0 h0 hle _ _ hdone
    simp only [roundLoop, roundGoesOn, decide_eq_false_iff_not, not_lt] at hdone ⊢
    split <;> omega
  | cons p ps ih =>
    intro s0 h0 hle hz H hdone
    rw [roundLoop_cons] at hdone ⊢
    by_cases hgo : roundGoesOn g s0 = true
    swap
    · simp only [hgo] at hdone ⊢
      simp only [roundGoesOn, decide_eq_true_eq, not_lt] at hgo
      simp only [Bool.false_eq_true, if_false]
      split <;> omega
    simp only [hgo, if_true] at hdone ⊢
    have hlt : s0.intervalCounter < g.MAX_INTERVALS := by simpa [roundGoesOn] using hgo
    have hic := roundCycle_counter g s0 p
    have hcor := roundCycle_correct g s0 p
    cases hov : intervalOver g s0 p
    · -- the pass stays in the interval
      have hs1 := roundCycle_not_over g s0 p hov
      have hgot : (roundCycle g s0 p).1.gotItRight = (strumHit g s0 p || s0.gotItRight) := by
        rw [hs1]
      simp only [hov, Bool.false_eq_true, if_false, false_and] at hic hcor
      have := ih (roundCycle g s0 p).1 (by omega) (by omega)
        (by
          intro hz1
          rw [hgot, strumHit_of_counter_zero g s0 p (by omega), hz (by omega)]
          rfl)
        (by
          intro k hk1 hk2 hk3
          rcases H k hk1 (by omega) hk3 with ⟨hk, hg⟩ | ⟨sq, hsq, hk, hh⟩
          · exact Or.inl ⟨by omega, by rw [hgot, hg]; simp⟩
          · rw [roundTrace_cons, hgo] at hsq
            simp only [if_true] at hsq
            rcases List.mem_cons.mp hsq with hsq | hsq
            · subst hsq
              exact Or.inl ⟨by simp only at hk; omega, by rw [hgot, hh]; simp⟩
            · exact Or.inr ⟨sq, hsq, hk, hh⟩)
        hdone
      rw [this, hic, hcor]
    · -- the pass is the boundary of the interval
      have hs1 := roundCycle_over g s0 p hov
      have hgot : (roundCycle g s0 p).1.gotItRight = false := by rw [hs1]
      simp only [hov, if_true, true_and] at hic hcor
      have := ih (roundCycle g s0 p).1 (by omega) (by omega)
        (by intro _; exact hgot)
        (by
          intro k hk1 hk2 hk3
          rcases H k hk1 (by omega) hk3 with ⟨hk, _⟩ | ⟨sq, hsq, hk, hh⟩
          · omega
          · rw [roundTrace_cons, hgo] at hsq
            simp only [if_true] at hsq
            rcases List.mem_cons.mp hsq with hsq | hsq
            · subst hsq
              simp only at hk
              omega
            · exact Or.inr ⟨sq, hsq, hk, hh⟩)
        hdone
      rw [this, hic, hcor]
      by_cases hzero : s0.intervalCounter = 0
      · rw [strumHit_of_counter_zero g s0 p hzero, hz hzero]
        simp only [Bool.or_self, Bool.false_eq_true, if_false]
        rw [if_neg (by omega), if_pos ⟨hzero, by omega⟩]
        omega
      · have hhit : (strumHit g s0 p || s0.gotItRight) = true := by
          rcases H s0.intervalCounter (by omega) (le_refl _) hlt with
            ⟨_, hg⟩ | ⟨sq, hsq, hk, hh⟩
          · rw [hg]; simp
          · rw [roundTrace_cons, hgo] at hsq
            simp only [if_true] at hsq
            rcases List.mem_cons.mp hsq with hsq | hsq
            · subst hsq
              rw [hh]; simp
            · have hge := roundTrace_counter_ge g ps _ _ hsq
              omega
        rw [hhit]
        simp only [if_true]
        rw [if_neg (by omega), if_neg (by omega)]
        omega

/-- A property that every pass of the loop preserves holds at the start of
every pass of the trace. -/
theorem roundTrace_forall (g : Setup) (P : RoundState → Prop)
    (hstep : ∀ s p, roundGoesOn g s = true → P s → P (roundCycle g s p).1)
    (ps : List Poll) :
    ∀ s0 : RoundState, P s0 → ∀ sp ∈ roundTrace g s0 ps, P sp.1 := by
  induction ps with
  | nil => intro s0 _ sp h; simp [roundTrace] at h
  | cons p ps ih =>
    intro s0 h0 sp h
    rw [roundTrace_cons] at h
    split at h
    · rename_i hgo
      rcases List.mem_cons.mp h with h | h
      · subst h; exact h0
      · exact ih _ (hstep s0 p hgo h0) sp h
    · simp at h

/-- In interval 0 of a round the flag `gotItRight` is never set. -/
theorem roundTrace_first_interval (g : Setup) (now : Int) (ps : List Poll) :
    ∀ sp ∈ roundTrace g (roundStart now) ps,
      0 ≤ sp.1.intervalCounter ∧ (sp.1.intervalCounter = 0 → sp.1.gotItRight = false) := by
  apply roundTrace_forall g
    (fun s => 0 ≤ s.intervalCounter ∧ (s.intervalCounter = 0 → s.gotItRight = false))
  · intro s p _ hs
    cases hov : intervalOver g s p
    · rw [roundCycle_not_over g s p hov]
      refine ⟨hs.1, ?_⟩
      intro hz
      simp only at hz
      simp [strumHit_of_counter_zero g s p hz, hs.2 hz]
    · rw [roundCycle_over g s p hov]
      exact ⟨by simp only; omega, fun _ => rfl⟩
  · exact ⟨le_refl _, fun _ => rfl⟩

theorem clipsOf_append (k : Int) (es fs : List Effect) :
    clipsOf k (es ++ fs) = clipsOf k es ++ clipsOf k fs := by
  simp [clipsOf, List.filterMap_append]

theorem clipsOf_setLED (k : Int) (flag : Int) (pin : Nat) (es : List Effect) :
    clipsOf k (setLED flag pin :: es) = clipsOf k es := by
  unfold setLED clipsOf
  split <;> simp [List.filterMap_cons]

theorem clipsOf_updateLEDs (k : Int) (LEDs : ledPins) (song : Int → row) (i : Int) :
    clipsOf k (updateLEDs LEDs song i) = [] := by
  unfold updateLEDs
  split <;> simp [clipsOf_setLED] <;> rfl

theorem clipsOf_nil (k : Int) : clipsOf k [] = [] := rfl

theorem clipsOf_printMsg (k : Int) (str : String) (es : List Effect) :
    clipsOf k (Effect.printMsg str :: es) = clipsOf k es := rfl

theorem clipsOf_playSound (k : Int) (c : Clip) (es : List Effect) :
    clipsOf k (Effect.playSound c :: es) = (k, c) :: clipsOf k es := rfl

/-- The clips of one pass. -/
theorem clipsOf_roundCycle (g : Setup) (s : RoundState) (p : Poll) :
    clipsOf s.intervalCounter (roundCycle g s p).2 =
      if intervalOver g s p = true then
        if (strumHit g s p || s.gotItRight) = true then
          [(s.intervalCounter, Clip.niceSoundPath)]
        else if 0 < s.intervalCounter then [(s.intervalCounter, Clip.badSoundPath)]
        else []
      else [] := by
  unfold roundCycle
  cases hov : intervalOver g s p <;> cases hs : ifStrummed p.strumLevel <;>
    cases hh : strumHit g s p <;> cases hg : s.gotItRight <;>
    simp only [if_true, if_false, Bool.false_eq_true, Bool.or_self, Bool.or_true,
      Bool.or_false, List.nil_append, List.cons_append, List.append_assoc,
      clipsOf_append, clipsOf_updateLEDs, clipsOf_nil, clipsOf_printMsg,
      clipsOf_playSound, List.append_nil] <;>
    (try split) <;>
    simp only [clipsOf_append, clipsOf_updateLEDs, clipsOf_nil, clipsOf_printMsg,
      clipsOf_playSound, List.append_nil, List.nil_append]

theorem clipLog_cons (g : Setup) (s : RoundState) (p : Poll) (ps : List Poll) :
    clipLog g s (p :: ps) =
      if roundGoesOn g s = true then
        clipsOf s.intervalCounter (roundCycle g s p).2 ++ clipLog g (roundCycle g s p).1 ps
      else [] := by
  unfold clipLog
  rw [roundTrace_cons]
  split <;> simp

theorem strumHit_of_no_strum (g : Setup) (s : RoundState) (p : Poll)
    (h : ifStrummed p.strumLevel = false) : strumHit g s p = false := by
  unfold strumHit
  simp [h]

/-- A round without any strum, from a state with `gotItRight` clear: the score
stays and the clips are those of `missClips`. -/
theorem roundLoop_no_strum (g : Setup) (ps : List Poll) :
    ∀ s0 : RoundState, s0.gotItRight = false →
      (∀ sq ∈ roundTrace g s0 ps, ifStrummed sq.2.strumLevel = false) →
      roundGoesOn g (roundLoop g s0 ps) = false →
      (roundLoop g s0 ps).correct = s0.correct ∧
      clipLog g s0 ps = missClips s0.intervalCounter (g.MAX_INTERVALS - s0.intervalCounter).toNat := by
  induction ps with
  | nil =>
    intro s0 _ _ hdone
    simp only [roundLoop, roundGoesOn, decide_eq_false_iff_not, not_lt] at hdone
    have : (g.MAX_INTERVALS - s0.intervalCounter).toNat = 0 := by omega
    rw [this]
    exact ⟨rfl, rfl⟩
  | cons p ps ih =>
    intro s0 hg hno hdone
    rw [roundLoop_cons] at hdone ⊢
    rw [clipLog_cons]
    by_cases hgo : roundGoesOn g s0 = true
    swap
    · simp only [hgo] at hdone ⊢
      simp only [roundGoesOn, decide_eq_true_eq, not_lt] at hgo
      have : (g.MAX_INTERVALS - s0.intervalCounter).toNat = 0 := by omega
      rw [this]
      exact ⟨rfl, rfl⟩
    simp only [hgo, if_true] at hdone ⊢
    have hlt : s0.intervalCounter < g.MAX_INTERVALS := by simpa [roundGoesOn] using hgo
    rw [roundTrace_cons, hgo] at hno
    simp only [if_true, List.mem_cons, forall_eq_or_imp] at hno
    obtain ⟨hno0, hno1⟩ := hno
    have hh := strumHit_of_no_strum g s0 p hno0
    have hic := roundCycle_counter g s0 p
    have hcor := roundCycle_correct g s0 p
    have hclip := clipsOf_roundCycle g s0 p
    rw [hh, hg] at hcor hclip
    simp only [Bool.or_self, Bool.false_eq_true, and_false, if_false] at hcor hclip
    cases hov : intervalOver g s0 p
    · have hs1 := roundCycle_not_over g s0 p hov
      have hgot : (roundCycle g s0 p).1.gotItRight = false := by
        rw [hs1]; simp [hh, hg]
      simp only [hov, Bool.false_eq_true, if_false] at hic hclip
      obtain ⟨h1, h2⟩ := ih _ hgot hno1 hdone
      rw [h1, h2, hcor, hclip, hic]
      exact ⟨rfl, rfl⟩
    · have hs1 := roundCycle_over g s0 p hov
      have hgot : (roundCycle g s0 p).1.gotItRight = false := by rw [hs1]
      simp only [hov, if_true] at hic hclip
      obtain ⟨h1, h2⟩ := ih _ hgot hno1 hdone
      rw [h1, h2, hcor, hclip, hic]
      refine ⟨rfl, ?_⟩
      obtain ⟨n, hn⟩ : ∃ n : Nat, (g.MAX_INTERVALS - s0.intervalCounter).toNat = n + 1 :=
        ⟨(g.MAX_INTERVALS - s0.intervalCounter).toNat - 1, by omega⟩
      have hn' : (g.MAX_INTERVALS - (s0.intervalCounter + 1)).toNat = n := by omega
      rw [hn, hn']
      rfl

theorem missClips_of_pos (n : Nat) :
    ∀ k : Int, 0 < k →
      missClips k n = (List.range n).map fun (i : Nat) => (k + (i : Int), Clip.badSoundPath) := by
  induction n with
  | zero => intro k _; rfl
  | succ n ih =>
    intro k hk
    rw [missClips, if_pos hk, ih (k + 1) (by omega), List.range_succ_eq_map]
    simp only [List.map_cons, List.map_map, List.singleton_append, Nat.cast_zero, add_zero]
    congr 1
    apply List.map_congr_left
    intro i _
    simp only [Function.comp, Nat.cast_succ]
    congr 1
    omega

/-! ## Lemmas on the score log -/

/-- With enough fuel `log10Floor` is the integer decimal logarithm. -/
theorem log10Floor_eq_log (fuel : Nat) :
    ∀ x : Nat, x ≤ fuel → log10Floor fuel x = Nat.log 10 x := by
  induction fuel with
  | zero =>
    intro x hx
    have : x = 0 := by omega
    subst this
    simp [log10Floor]
  | succ fuel ih =>
    intro x hx
    unfold log10Floor
    split
    · rename_i h; exact (Nat.log_of_lt h).symm
    · rename_i h
      rw [ih (x / 10) (by omega), Nat.log_div_base]
      have : 1 ≤ Nat.log 10 x := Nat.log_pos (by norm_num) (by omega)
      omega

theorem getc_append_left (pre rest : List Char) (a : Char) :
    getc (pre ++ a :: rest) pre.length = (a.toNat : Int) := by
  unfold getc
  rw [List.get?_eq_getElem?, List.getElem?_append_right (le_refl _)]
  simp

/-- What `getPreviousScore` returns for a file that ends in four characters `a b c d`. -/
theorem getPreviousScore_of_tail (fs : Files) (name : String) (pre : List Char)
    (a b c d : Char) (h : fs name = some (pre ++ [a, b, c, d])) :
    getPreviousScore fs name = some (((a.toNat : Int) - 48) * 10 + ((b.toNat : Int) - 48)) := by
  unfold getPreviousScore
  rw [h]
  have hlen : (pre ++ [a, b, c, d]).length = pre.length + 4 := by simp
  have hpos : (if 4 ≤ (pre ++ [a, b, c, d]).length then (pre ++ [a, b, c, d]).length - 4
      else 0) = pre.length := by
    rw [hlen, if_pos (by omega)]
    omega
  simp only [hpos]
  have h1 := getc_append_left pre [b, c, d] a
  have h2 : getc (pre ++ [a, b, c, d]) (pre.length + 1) = (b.toNat : Int) := by
    have := getc_append_left (pre ++ [a]) [c, d] b
    simpa using this
  rw [h1, h2]
  simp

theorem digitCount_of_ne_zero (score nZero : Int) (h : score ≠ 0) :
    digitCount score nZero = digitCount score 0 := by
  unfold digitCount
  rw [if_neg h, if_neg h]

theorem scoreStr_zero (n : Int) : scoreStr 0 n = ['0', '0'] := by
  unfold scoreStr
  split <;> split <;> rfl

/-- The two characters `updateScore` writes for a score from 0 to 30: the
tens digit and the units digit. -/
theorem scoreStr_digits (score nZero : Int) (h0 : 0 ≤ score) (h30 : score ≤ 30) :
    scoreStr score (digitCount score nZero) =
      [Char.ofNat (48 + score.toNat / 10), Char.ofNat (48 + score.toNat % 10)] := by
  by_cases hz : score = 0
  · subst hz
    rw [scoreStr_zero]
    rfl
  · rw [digitCount_of_ne_zero score nZero hz]
    interval_cases score <;> first | exact absurd rfl hz | decide

theorem scoreStr_value (score : Int) (h0 : 0 ≤ score) (h30 : score ≤ 30) :
    (((Char.ofNat (48 + score.toNat / 10)).toNat : Int) - 48) * 10 +
      (((Char.ofNat (48 + score.toNat % 10)).toNat : Int) - 48) = score := by
  interval_cases score <;> decide

theorem appendFile_same (fs : Files) (path : String) (text : List Char) :
    appendFile fs path text path = some ((fs path).getD [] ++ text) := by
  unfold appendFile
  rw [if_pos rfl]

theorem appendFile_other (fs : Files) (path q : String) (text : List Char) (h : q ≠ path) :
    appendFile fs path text q = fs q := by
  unfold appendFile
  rw [if_neg h]

theorem updateScore_accept (fs : Files) (scoreFileName : String) (score : Int)
    (programName time : List Char) (nZero : Int) (h0 : 0 ≤ score) (h30 : score ≤ 30) :
    updateScore fs scoreFileName score programName time nZero =
      (appendFile fs scoreLogPath
        (PRINT_MSG time programName (scoreStr score (digitCount score nZero))), []) := by
  unfold updateScore
  rw [if_neg (by omega)]

theorem updateScore_reject (fs : Files) (scoreFileName : String) (score : Int)
    (programName time : List Char) (nZero : Int) (h : score < 0 ∨ 30 < score) :
    updateScore fs scoreFileName score programName time nZero = (fs, ["Invalid Score"]) := by
  unfold updateScore
  rw [if_pos (by omega)]

/-- After an accepted `updateScore` the score log reads back as the score. -/
theorem getPreviousScore_updateScore (fs : Files) (scoreFileName : String) (score : Int)
    (programName time : List Char) (nZero : Int) (h0 : 0 ≤ score) (h30 : score ≤ 30) :
    getPreviousScore (updateScore fs scoreFileName score programName time nZero).1
      scoreLogPath = some score := by
  rw [updateScore_accept fs scoreFileName score programName time nZero h0 h30]
  have h := getPreviousScore_of_tail
    (appendFile fs scoreLogPath
      (PRINT_MSG time programName (scoreStr score (digitCount score nZero))))
    scoreLogPath
    ((fs scoreLogPath).getD [] ++ (time ++ " : ".toList ++ programName ++ " : ".toList))
    (Char.ofNat (48 + score.toNat / 10)) (Char.ofNat (48 + score.toNat % 10)) '\n' '\n'
    (by
      rw [appendFile_same, scoreStr_digits score nZero h0 h30]
      unfold PRINT_MSG
      simp)
  rw [h, scoreStr_value score h0 h30]

/-! ## Lemmas on the song selection -/

theorem tdiv_three_pos (L : Int) (h : 3 ≤ L) : 0 < L.tdiv 3 := by
  rw [Int.tdiv_eq_ediv (by omega) (by norm_num)]
  omega

theorem tdiv_three_nonpos (L : Int) (h : L < 3) : L.tdiv 3 ≤ 0 := by
  by_cases h0 : 0 ≤ L
  · rw [Int.tdiv_eq_ediv h0 (by norm_num)]
    omega
  · have h1 := Int.neg_tdiv (-L) 3
    rw [neg_neg] at h1
    have h2 : 0 ≤ (-L).tdiv 3 := Int.tdiv_nonneg (by omega) (by norm_num)
    omega

theorem tdiv_three_nonneg (L : Int) (h : 0 ≤ L) : 0 ≤ L.tdiv 3 :=
  Int.tdiv_nonneg h (by norm_num)

/-! ## Lemmas on the LED pins -/

theorem pinMask_testBit (pin q : Nat) :
    (pinMask pin).testBit q = decide (pin = q ∧ pin < 32) := by
  rw [pinMask_eq]
  by_cases h : pin < 32
  · simp [h, Nat.testBit_two_pow]
  · simp [h]

theorem pinLevels_nil (level : Nat → Bool) : pinLevels [] level = level := rfl

theorem pinLevels_cons (e : Effect) (es : List Effect) (level : Nat → Bool) :
    pinLevels (e :: es) level = pinLevels es (applyEffect level e) := rfl

theorem pinLevels_append (es fs : List Effect) (level : Nat → Bool) :
    pinLevels (es ++ fs) level = pinLevels fs (pinLevels es level) := by
  unfold pinLevels
  rw [List.foldl_append]

theorem applyEffect_printMsg (level : Nat → Bool) (str : String) :
    applyEffect level (Effect.printMsg str) = level := rfl

theorem applyEffect_playSound (level : Nat → Bool) (c : Clip) :
    applyEffect level (Effect.playSound c) = level := rfl

/-- Writing a flag to an LED on one of the first 32 pins sets that pin to the flag. -/
theorem applyEffect_setLED_same (level : Nat → Bool) (flag : Int) (pin : Nat)
    (h : pin < 32) : applyEffect level (setLED flag pin) pin = decide (flag ≠ 0) := by
  unfold setLED
  split <;> rename_i hf <;> simp [applyEffect, pinMask_testBit, h, hf]

/-- Writing a flag to an LED leaves every other pin as it is. -/
theorem applyEffect_setLED_other (level : Nat → Bool) (flag : Int) (pin q : Nat)
    (h : pin ≠ q) : applyEffect level (setLED flag pin) q = level q := by
  unfold setLED
  split <;> simp [applyEffect, pinMask_testBit, h]

theorem applyEffect_outputOff_same (level : Nat → Bool) (pin : Nat) (h : pin < 32) :
    applyEffect level (Effect.outputOff pin) pin = false := by
  simp [applyEffect, pinMask_testBit, h]

theorem applyEffect_outputOff_other (level : Nat → Bool) (pin q : Nat) (h : pin ≠ q) :
    applyEffect level (Effect.outputOff pin) q = level q := by
  simp [applyEffect, pinMask_testBit, h]

/-- The pins after `updateLEDs` at interval index 0: the back row shows row 0
and the front row is as it was. -/
theorem pinLevels_updateLEDs_zero (LEDs : ledPins) (song : Int → row) (level : Nat → Bool)
    (hpins : validPins LEDs) :
    rowShown (pinLevels (updateLEDs LEDs song 0) level)
      LEDs.led21 LEDs.led22 LEDs.led23 (song 0) ∧
    pinLevels (updateLEDs LEDs song 0) level LEDs.led11 = level LEDs.led11 ∧
    pinLevels (updateLEDs LEDs song 0) level LEDs.led12 = level LEDs.led12 ∧
    pinLevels (updateLEDs LEDs song 0) level LEDs.led13 = level LEDs.led13 := by
  obtain ⟨hnd, hlt⟩ := hpins
  simp only [List.nodup_cons, List.mem_cons, List.mem_singleton, not_or, List.not_mem_nil,
    not_false_eq_true, List.nodup_nil, and_true, List.mem_nil_iff, or_false] at hnd
  simp only [List.mem_cons, List.mem_singleton, forall_eq_or_imp, forall_eq,
    List.mem_nil_iff, or_false, List.not_mem_nil, false_imp_iff, implies_true, and_true] at hlt
  obtain ⟨⟨n12, n13, n14, n15, n16⟩, ⟨n23, n24, n25, n26⟩, ⟨n34, n35, n36⟩, ⟨n45, n46⟩, n56⟩ :=
    hnd
  obtain ⟨l1, l2, l3, l4, l5, l6⟩ := hlt
  unfold updateLEDs rowShown
  simp only [if_true, pinLevels_cons, pinLevels_nil]
  refine ⟨⟨?_, ?_, ?_⟩, ?_, ?_, ?_⟩
  · rw [applyEffect_setLED_other _ _ _ _ (Ne.symm n46),
      applyEffect_setLED_other _ _ _ _ (Ne.symm n45), applyEffect_setLED_same _ _ _ l4]
  · rw [applyEffect_setLED_other _ _ _ _ (Ne.symm n56), applyEffect_setLED_same _ _ _ l5]
  · rw [applyEffect_setLED_same _ _ _ l6]
  · rw [applyEffect_setLED_other _ _ _ _ (Ne.symm n16),
      applyEffect_setLED_other _ _ _ _ (Ne.symm n15),
      applyEffect_setLED_other _ _ _ _ (Ne.symm n14)]
  · rw [applyEffect_setLED_other _ _ _ _ (Ne.symm n26),
      applyEffect_setLED_other _ _ _ _ (Ne.symm n25),
      applyEffect_setLED_other _ _ _ _ (Ne.symm n24)]
  · rw [applyEffect_setLED_other _ _ _ _ (Ne.symm n36),
      applyEffect_setLED_other _ _ _ _ (Ne.symm n35),
      applyEffect_setLED_other _ _ _ _ (Ne.symm n34)]

/-- The pins after `updateLEDs` at an interval index other than 0: the front
row shows the row before and the back row shows the row of the index. -/
theorem pinLevels_updateLEDs_pos (LEDs : ledPins) (song : Int → row) (level : Nat → Bool)
    (k : Int) (hk : k ≠ 0) (hpins : validPins LEDs) :
    rowShown (pinLevels (updateLEDs LEDs song k) level)
      LEDs.led11 LEDs.led12 LEDs.led13 (song (k - 1)) ∧
    rowShown (pinLevels (updateLEDs LEDs song k) level)
      LEDs.led21 LEDs.led22 LEDs.led23 (song k) := by
  obtain ⟨hnd, hlt⟩ := hpins
  simp only [List.nodup_cons, List.mem_cons, List.mem_singleton, not_or, List.not_mem_nil,
    not_false_eq_true, List.nodup_nil, and_true, List.mem_nil_iff, or_false] at hnd
  simp only [List.mem_cons, List.mem_singleton, forall_eq_or_imp, forall_eq,
    List.mem_nil_iff, or_false, List.not_mem_nil, false_imp_iff, implies_true, and_true] at hlt
  obtain ⟨⟨n12, n13, n14, n15, n16⟩, ⟨n23, n24, n25, n26⟩, ⟨n34, n35, n36⟩, ⟨n45, n46⟩, n56⟩ :=
    hnd
  obtain ⟨l1, l2, l3, l4, l5, l6⟩ := hlt
  unfold updateLEDs rowShown
  simp only [if_neg hk, pinLevels_cons, pinLevels_nil]
  refine ⟨⟨?_, ?_, ?_⟩, ?_, ?_, ?_⟩
  · rw [applyEffect_setLED_other _ _ _ _ (Ne.symm n13),
      applyEffect_setLED_other _ _ _ _ (Ne.symm n12), applyEffect_setLED_same _ _ _ l1]
  · rw [applyEffect_setLED_other _ _ _ _ (Ne.symm n23), applyEffect_setLED_same _ _ _ l2]
  · rw [applyEffect_setLED_same _ _ _ l3]
  · rw [applyEffect_setLED_other _ _ _ _ n34, applyEffect_setLED_other _ _ _ _ n24,
      applyEffect_setLED_other _ _ _ _ n14, applyEffect_setLED_other _ _ _ _ (Ne.symm n46),
      applyEffect_setLED_other _ _ _ _ (Ne.symm n45), applyEffect_setLED_same _ _ _ l4]
  · rw [applyEffect_setLED_other _ _ _ _ n35, applyEffect_setLED_other _ _ _ _ n25,
      applyEffect_setLED_other _ _ _ _ n15, applyEffect_setLED_other _ _ _ _ (Ne.symm n56),
      applyEffect_setLED_same _ _ _ l5]
  · rw [applyEffect_setLED_other _ _ _ _ n36, applyEffect_setLED_other _ _ _ _ n26,
      applyEffect_setLED_other _ _ _ _ n16, applyEffect_setLED_same _ _ _ l6]

/-- After `setAllOff` the three front-row pins are low. -/
theorem pinLevels_setAllOff_front (LEDs : ledPins) (level : Nat → Bool)
    (hpins : validPins LEDs) :
    pinLevels (setAllOff LEDs) level LEDs.led11 = false ∧
    pinLevels (setAllOff LEDs) level LEDs.led12 = false ∧
    pinLevels (setAllOff LEDs) level LEDs.led13 = false := by
  obtain ⟨hnd, hlt⟩ := hpins
  simp only [List.nodup_cons, List.mem_cons, List.mem_singleton, not_or, List.not_mem_nil,
    not_false_eq_true, List.nodup_nil, and_true, List.mem_nil_iff, or_false] at hnd
  simp only [List.mem_cons, List.mem_singleton, forall_eq_or_imp, forall_eq,
    List.mem_nil_iff, or_false, List.not_mem_nil, false_imp_iff, implies_true, and_true] at hlt
  obtain ⟨⟨n12, n13, n14, n15, n16⟩, ⟨n23, n24, n25, n26⟩, ⟨n34, n35, n36⟩, ⟨n45, n46⟩, n56⟩ :=
    hnd
  obtain ⟨l1, l2, l3, l4, l5, l6⟩ := hlt
  unfold setAllOff
  simp only [pinLevels_cons, pinLevels_nil]
  refine ⟨?_, ?_, ?_⟩
  · rw [applyEffect_outputOff_other _ _ _ (Ne.symm n16),
      applyEffect_outputOff_other _ _ _ (Ne.symm n15),
      applyEffect_outputOff_other _ _ _ (Ne.symm n14),
      applyEffect_outputOff_other _ _ _ (Ne.symm n13),
      applyEffect_outputOff_other _ _ _ (Ne.symm n12), applyEffect_outputOff_same _ _ l1]
  · rw [applyEffect_outputOff_other _ _ _ (Ne.symm n26),
      applyEffect_outputOff_other _ _ _ (Ne.symm n25),
      applyEffect_outputOff_other _ _ _ (Ne.symm n24),
      applyEffect_outputOff_other _ _ _ (Ne.symm n23), applyEffect_outputOff_same _ _ l2]
  · rw [applyEffect_outputOff_other _ _ _ (Ne.symm n36),
      applyEffect_outputOff_other _ _ _ (Ne.symm n35),
      applyEffect_outputOff_other _ _ _ (Ne.symm n34), applyEffect_outputOff_same _ _ l3]

theorem pinLevels_strumLog (b : Bool) (level : Nat → Bool) :
    pinLevels (if b = true then [Effect.printMsg "Laser Strummed"] else []) level = level := by
  cases b <;> rfl

/-- The pins after one pass of the round loop: only the `updateLEDs` of an
interval boundary writes them. -/
theorem pinLevels_roundCycle (g : Setup) (s : RoundState) (p : Poll) (level : Nat → Bool) :
    pinLevels (roundCycle g s p).2 level =
      if intervalOver g s p = true then
        pinLevels (updateLEDs g.LEDs g.song (s.intervalCounter + 1)) level
      else level := by
  unfold roundCycle
  cases hov : intervalOver g s p
  · simp only [Bool.false_eq_true, if_false]
    exact pinLevels_strumLog _ _
  · simp only [if_true, pinLevels_append, pinLevels_strumLog]
    cases strumHit g s p <;> cases s.gotItRight <;>
      simp only [Bool.false_eq_true, if_false, if_true] <;> first | rfl | (split <;> rfl)

theorem roundEffects_cons (g : Setup) (s : RoundState) (p : Poll) (ps : List Poll) :
    roundEffects g s (p :: ps) =
      if roundGoesOn g s = true then
        (roundCycle g s p).2 ++ roundEffects g (roundCycle g s p).1 ps
      else [] := rfl

/-- The display follows the interval index: along the round loop the front
row shows the row before the current index and the back row the row of the index. -/
theorem pinLevels_roundEffects (g : Setup) (hpins : validPins g.LEDs) (ps : List Poll) :
    ∀ (s0 : RoundState) (level : Nat → Bool), 0 ≤ s0.intervalCounter →
      ((s0.intervalCounter ≠ 0 → rowShown level g.LEDs.led11 g.LEDs.led12 g.LEDs.led13
          (g.song (s0.intervalCounter - 1))) ∧
        rowShown level g.LEDs.led21 g.LEDs.led22 g.LEDs.led23 (g.song s0.intervalCounter)) →
      ((roundLoop g s0 ps).intervalCounter ≠ 0 →
        rowShown (pinLevels (roundEffects g s0 ps) level)
          g.LEDs.led11 g.LEDs.led12 g.LEDs.led13
          (g.song ((roundLoop g s0 ps).intervalCounter - 1))) ∧
      rowShown (pinLevels (roundEffects g s0 ps) level)
        g.LEDs.led21 g.LEDs.led22 g.LEDs.led23
        (g.song (roundLoop g s0 ps).intervalCounter) := by
  induction ps with
  | nil => intro s0 level _ h; exact h
  | cons p ps ih =>
    intro s0 level h0 h
    rw [roundLoop_cons, roundEffects_cons]
    cases hgo : roundGoesOn g s0
    · simpa using h
    · simp only [if_true, pinLevels_append]
      have hic := roundCycle_counter g s0 p
      apply ih
      · rw [hic]; split <;> omega
      · rw [pinLevels_roundCycle, hic]
        cases hov : intervalOver g s0 p
        · simpa using h
        · simp only [if_true]
          have hpos := pinLevels_updateLEDs_pos g.LEDs g.song level (s0.intervalCounter + 1)
            (by omega) hpins
          exact ⟨fun _ => hpos.1, hpos.2⟩

/-- The effects of `updateLEDs` at interval index 0 are three writes to the
back-row pins. -/
theorem updateLEDs_zero_writes (LEDs : ledPins) (song : Int → row) (e : Effect)
    (he : e ∈ updateLEDs LEDs song 0) :
    e = Effect.outputOn LEDs.led21 ∨ e = Effect.outputOff LEDs.led21 ∨
    e = Effect.outputOn LEDs.led22 ∨ e = Effect.outputOff LEDs.led22 ∨
    e = Effect.outputOn LEDs.led23 ∨ e = Effect.outputOff LEDs.led23 := by
  unfold updateLEDs setLED at he
  simp only [if_true, List.mem_cons, List.mem_singleton, List.mem_nil_iff, or_false] at he
  rcases he with h | h | h <;> subst h <;> split <;> simp

/-! ## Lemmas on the loading of the song -/

theorem readLine_rest_le (room : Nat) :
    ∀ stream : List Char, (readLine room stream).2.length ≤ stream.length := by
  induction room with
  | zero => intro stream; simp [readLine]
  | succ room ih =>
    intro stream
    cases stream with
    | nil => simp [readLine]
    | cons c stream =>
      unfold readLine
      split
      · simp
      · have := ih stream
        simp only [List.length_cons]
        omega

/-- A successful `fgets` into a buffer of 7 takes at least one character. -/
theorem fgets_rest_lt (buffer stream buffer1 stream1 : List Char)
    (h : fgets buffer 7 stream = some (buffer1, stream1)) :
    stream1.length < stream.length := by
  unfold fgets at h
  split at h
  · exact absurd h (by simp)
  · simp only [Option.some.injEq, Prod.mk.injEq] at h
    obtain ⟨-, rfl⟩ := h
    cases stream with
    | nil => rename_i hne; exact absurd rfl hne
    | cons c stream =>
      rw [show (7 : Nat) - 1 = 5 + 1 by decide]
      unfold readLine
      split
      · simp
      · have := readLine_rest_le 5 stream
        simp only [List.length_cons]
        omega

theorem loadCount_le_todo (todo : Nat) :
    ∀ buffer stream : List Char, loadCount todo buffer stream ≤ todo := by
  induction todo with
  | zero => intro buffer stream; simp [loadCount]
  | succ todo ih =>
    intro buffer stream
    unfold loadCount
    split
    · omega
    · rename_i buffer1 stream1 _
      have := ih buffer1 stream1
      omega

theorem loadCount_le_length (todo : Nat) :
    ∀ buffer stream : List Char, loadCount todo buffer stream ≤ stream.length := by
  induction todo with
  | zero => intro buffer stream; simp [loadCount]
  | succ todo ih =>
    intro buffer stream
    unfold loadCount
    split
    · omega
    · rename_i buffer1 stream1 h
      have h1 := ih buffer1 stream1
      have h2 := fgets_rest_lt buffer stream buffer1 stream1 h
      omega

/-- The loading loop writes the rows from `intervalCount` up to the number of
rows it stores, and no other. -/
theorem loadRows_outside (todo : Nat) :
    ∀ (intervalCount : Int) (buffer stream : List Char) (song : Int → row) (k : Int),
      k < intervalCount ∨ intervalCount + (loadCount todo buffer stream : Int) ≤ k →
      loadRows todo intervalCount buffer stream song k = song k := by
  induction todo with
  | zero => intro intervalCount buffer stream song k _; rfl
  | succ todo ih =>
    intro intervalCount buffer stream song k hk
    cases h : fgets buffer 7 stream with
    | none => simp only [loadRows, h]
    | some bs =>
      obtain ⟨buffer1, stream1⟩ := bs
      simp only [loadRows, loadCount, h, Nat.cast_add, Nat.cast_one] at hk ⊢
      rw [ih (intervalCount + 1) buffer1 stream1 _ k (by omega)]
      rw [if_neg (by omega)]

/-! ## Lemmas on the wait for the buttons -/

/-- On one of the first 32 pins the test of `anythingPressed` reads the level
bit of the pin: it holds exactly when the bit is 0. -/
theorem levelLow_eq_not_testBit (sel_reg pin : Nat) (h : pin < 32) :
    levelLow sel_reg pin = !sel_reg.testBit pin := by
  unfold levelLow
  rw [pinMask_eq, if_pos h, Nat.and_two_pow]
  cases sel_reg.testBit pin <;> simp

theorem anythingPressed_eq_or (butts : buttons) (r1 r2 r3 : Nat) :
    anythingPressed butts r1 r2 r3 =
      (levelLow r1 butts.b1 || levelLow r2 butts.b2 || levelLow r3 butts.b3) := by
  unfold anythingPressed
  cases levelLow r1 butts.b1 <;> cases levelLow r2 butts.b2 <;>
    cases levelLow r3 butts.b3 <;> rfl

/-- When the wait loop exits, the samples it took are all "pressed" but the
last, which is "nothing pressed". -/
theorem waitForRelease_some (butts : buttons) (waits : List ButtonPoll) :
    ∀ post : List ButtonPoll, waitForRelease butts waits = some post →
      ∃ (pre : List ButtonPoll) (w : ButtonPoll), waits = pre ++ w :: post ∧
        (∀ v ∈ pre, anythingPressed butts v.r1 v.r2 v.r3 = true) ∧
        anythingPressed butts w.r1 w.r2 w.r3 = false := by
  induction waits with
  | nil => intro post h; simp [waitForRelease] at h
  | cons w ws ih =>
    intro post h
    unfold waitForRelease at h
    cases hw : anythingPressed butts w.r1 w.r2 w.r3
    · rw [hw] at h
      simp only [Bool.false_eq_true, if_false, Option.some.injEq] at h
      subst h
      exact ⟨[], w, rfl, by simp, hw⟩
    · rw [hw] at h
      simp only [if_true] at h
      obtain ⟨pre, v, hws, hpre, hv⟩ := ih post h
      refine ⟨w :: pre, v, by rw [hws]; rfl, ?_, hv⟩
      intro u hu
      rcases List.mem_cons.mp hu with hu | hu
      · subst hu; exact hw
      · exact hpre u hu

/-- While every sample reads a pressed button the wait loop does not exit. -/
theorem waitForRelease_none (butts : buttons) (waits : List ButtonPoll)
    (h : ∀ w ∈ waits, anythingPressed butts w.r1 w.r2 w.r3 = true) :
    waitForRelease butts waits = none := by
  induction waits with
  | nil => rfl
  | cons w ws ih =>
    unfold waitForRelease
    rw [h w (List.mem_cons_self _ _)]
    simp only [if_true]
    exact ih (fun v hv => h v (List.mem_cons_of_mem _ hv))

/-! ## Lemmas on the hit flag and the clips of a round -/

/-- Passes that do not reach the deadline keep a set hit flag and the interval index. -/
theorem roundLoop_keeps_hit (g : Setup) (ps : List Poll) :
    ∀ s : RoundState, s.gotItRight = true → (∀ p ∈ ps, intervalOver g s p = false) →
      (roundLoop g s ps).gotItRight = true ∧
      (roundLoop g s ps).intervalCounter = s.intervalCounter := by
  induction ps with
  | nil => intro s hg _; exact ⟨hg, rfl⟩
  | cons p ps ih =>
    intro s hg hno
    rw [roundLoop_cons]
    cases hgo : roundGoesOn g s
    · exact ⟨hg, rfl⟩
    · simp only [if_true]
      have hp := hno p (List.mem_cons_self _ _)
      have hs1 := roundCycle_not_over g s p hp
      have h := ih (roundCycle g s p).1 (by rw [hs1]; simp [hg])
        (by
          intro q hq
          rw [hs1]
          exact hno q (List.mem_cons_of_mem _ hq))
      have hic1 : (roundCycle g s p).1.intervalCounter = s.intervalCounter := by rw [hs1]
      exact ⟨h.1, h.2.trans hic1⟩

theorem count_nice_add_bad (l : List Clip) :
    l.count Clip.niceSoundPath + l.count Clip.badSoundPath = l.length := by
  induction l with
  | nil => rfl
  | cons c l ih =>
    cases c <;> simp [List.count_cons] <;> omega

/-- The number of "correct" clips of a run is the number of points it awards. -/
theorem clipLog_nice_count (g : Setup) (ps : List Poll) :
    ∀ s0 : RoundState,
      ((((clipLog g s0 ps).map Prod.snd).count Clip.niceSoundPath : Nat) : Int) =
        (roundLoop g s0 ps).correct - s0.correct := by
  induction ps with
  | nil => intro s0; simp [clipLog, roundTrace, roundLoop]
  | cons p ps ih =>
    intro s0
    rw [clipLog_cons, roundLoop_cons]
    cases hgo : roundGoesOn g s0
    · simp
    · simp only [if_true, List.map_append, List.count_append, Nat.cast_add]
      rw [ih, clipsOf_roundCycle, roundCycle_correct]
      cases hov : intervalOver g s0 p <;>
        cases hg : (strumHit g s0 p || s0.gotItRight) <;>
        simp
      · split <;> rfl
      · omega

/-- The number of clips of a run that reaches the end of the round: one for
each interval left, but none for interval 0. -/
theorem clipLog_length (g : Setup) (ps : List Poll) :
    ∀ s0 : RoundState, 0 ≤ s0.intervalCounter → s0.intervalCounter ≤ g.MAX_INTERVALS →
      (s0.intervalCounter = 0 → s0.gotItRight = false) →
      roundGoesOn g (roundLoop g s0 ps) = false →
      (((clipLog g s0 ps).length : Nat) : Int) =
        g.MAX_INTERVALS - s0.intervalCounter -
          (if s0.intervalCounter = 0 ∧ 0 < g.MAX_INTERVALS then 1 else 0) := by
  induction ps with
  | nil =>
    intro s0 h0 hle _ hdone
    simp only [roundLoop, roundGoesOn, decide_eq_false_iff_not, not_lt] at hdone
    simp only [clipLog, roundTrace, List.flatMap_nil, List.length_nil, Nat.cast_zero]
    split <;> omega
  | cons p ps ih =>
    intro s0 h0 hle hz hdone
    rw [roundLoop_cons] at hdone
    rw [clipLog_cons]
    by_cases hgo : roundGoesOn g s0 = true
    swap
    · simp only [hgo] at hdone ⊢
      simp only [roundGoesOn, decide_eq_true_eq, not_lt] at hgo
      simp only [Bool.false_eq_true, if_false, List.length_nil, Nat.cast_zero]
      split <;> omega
    simp only [hgo, if_true] at hdone ⊢
    have hlt : s0.intervalCounter < g.MAX_INTERVALS := by simpa [roundGoesOn] using hgo
    have hic := roundCycle_counter g s0 p
    have hclip := clipsOf_roundCycle g s0 p
    rw [List.length_append, Nat.cast_add, hclip]
    cases hov : intervalOver g s0 p
    · have hs1 := roundCycle_not_over g s0 p hov
      simp only [hov, Bool.false_eq_true, if_false] at hic ⊢
      rw [ih (roundCycle g s0 p).1 (by omega) (by omega)
        (by
          intro hz1
          rw [hs1]
          simp [strumHit_of_counter_zero g s0 p (by omega), hz (by omega)])
        hdone, hic]
      simp
    · have hs1 := roundCycle_over g s0 p hov
      simp only [hov, if_true] at hic ⊢
      rw [ih (roundCycle g s0 p).1 (by omega) (by omega) (by intro _; rw [hs1]) hdone, hic]
      have e1 : ¬ (s0.intervalCounter + 1 = 0 ∧ 0 < g.MAX_INTERVALS) := by omega
      rw [if_neg e1]
      by_cases hzero : s0.intervalCounter = 0
      · have e2 : s0.intervalCounter = 0 ∧ 0 < g.MAX_INTERVALS := ⟨hzero, by omega⟩
        have e3 : ¬ (0 < s0.intervalCounter) := by omega
        rw [strumHit_of_counter_zero g s0 p hzero, hz hzero, if_pos e2]
        simp only [Bool.or_self, Bool.false_eq_true, if_false, if_neg e3, List.length_nil,
          Nat.cast_zero]
        omega
      · have e2 : ¬ (s0.intervalCounter = 0 ∧ 0 < g.MAX_INTERVALS) := by omega
        have e3 : 0 < s0.intervalCounter := by omega
        rw [if_neg e2]
        cases (strumHit g s0 p || s0.gotItRight)
        · simp only [Bool.false_eq_true, if_false, if_pos e3, List.length_singleton,
            Nat.cast_one]
          omega
        · simp only [if_true, List.length_singleton, Nat.cast_one]
          omega

theorem strumHit_eq_hitOn (g : Setup) (s : RoundState) (p : Poll) :
    strumHit g s p = hitOn g.butts g.song s.intervalCounter (sensorsOf p) := rfl

/-- Some pass of interval `k` has a hit exactly when some sample of the
interval gives a hit at index `k`. -/
theorem exists_hit_iff_samples (g : Setup) (s0 : RoundState) (ps : List Poll) (k : Int) :
    (∃ sq ∈ roundTrace g s0 ps, sq.1.intervalCounter = k ∧ strumHit g sq.1 sq.2 = true) ↔
      ∃ x ∈ intervalSamples g s0 ps k, hitOn g.butts g.song k x = true := by
  unfold intervalSamples
  constructor
  · rintro ⟨sq, hsq, hk, hh⟩
    refine ⟨sensorsOf sq.2, ?_, ?_⟩
    · rw [List.mem_map]
      exact ⟨sq, List.mem_filter.mpr ⟨hsq, by simpa using hk⟩, rfl⟩
    · rw [strumHit_eq_hitOn, hk] at hh
      exact hh
  · rintro ⟨x, hx, hh⟩
    rw [List.mem_map] at hx
    obtain ⟨sq, hsq, rfl⟩ := hx
    rw [List.mem_filter] at hsq
    have hk : sq.1.intervalCounter = k := by simpa using hsq.2
    refine ⟨sq, hsq.1, hk, ?_⟩
    rw [strumHit_eq_hitOn, hk]
    exact hh

/-- The hit flag at the boundary of an interval of a round, as a function of
the samples of the interval. -/
theorem boundary_hit_iff_samples (g : Setup) (now : Int) (ps : List Poll)
    (sp : RoundState × Poll) (hmem : sp ∈ roundTrace g (roundStart now) ps)
    (hover : intervalOver g sp.1 sp.2 = true) :
    (strumHit g sp.1 sp.2 || sp.1.gotItRight) = true ↔
      ∃ x ∈ intervalSamples g (roundStart now) ps sp.1.intervalCounter,
        hitOn g.butts g.song sp.1.intervalCounter x = true := by
  rw [roundTrace_got_iff g ps _ sp hmem hover, ← exists_hit_iff_samples]
  constructor
  · rintro (⟨-, hg⟩ | h)
    · simp [roundStart] at hg
    · exact h
  · intro h; exact Or.inr h

/-! ## Lemmas on flags of any value -/

theorem toU32_eq_zero_iff (i : Int) (h : isInt32 i) : toU32 i = 0 ↔ i = 0 := by
  unfold isInt32 at h
  unfold toU32
  omega

theorem toU32_eq_one_iff (i : Int) (h : isInt32 i) : toU32 i = 1 ↔ i = 1 := by
  unfold isInt32 at h
  unfold toU32
  omega

/-- The test of one lane in `checkButtons`, for any flag an `int` can hold. -/
theorem lane_test_iff_demand (lvl pin : Nat) (flag : Int) (h : isInt32 flag) :
    ¬ (laneLevel lvl pin ^^^ toU32 flag) = 0 ↔ laneDemand lvl pin flag := by
  rw [Nat.xor_eq_zero, laneLevel_eq]
  unfold laneDemand
  have h0 := toU32_eq_zero_iff flag h
  have h1 := toU32_eq_one_iff flag h
  by_cases hf0 : flag = 0
  · subst hf0
    cases levelLow lvl pin <;> simp [toU32_zero]
  · by_cases hf1 : flag = 1
    · subst hf1
      cases levelLow lvl pin <;> simp [toU32_one]
    · rw [if_neg hf0, if_neg hf1]
      have n0 : toU32 flag ≠ 0 := fun e => hf0 (h0.mp e)
      have n1 : toU32 flag ≠ 1 := fun e => hf1 (h1.mp e)
      cases levelLow lvl pin
      · simpa using Ne.symm n1
      · simpa using Ne.symm n0

/-- The result of `checkButtons` lane by lane, for any flags an `int` can hold. -/
theorem checkButtons_iff_demands (lvl1 lvl2 lvl3 : Nat) (intervalCounter : Int)
    (butts : buttons) (song : Int → row)
    (h1 : isInt32 (song intervalCounter).status1)
    (h2 : isInt32 (song intervalCounter).status2)
    (h3 : isInt32 (song intervalCounter).status3) :
    checkButtons lvl1 lvl2 lvl3 intervalCounter butts song = true ↔
      laneDemand lvl1 butts.b1 (song intervalCounter).status1 ∧
      laneDemand lvl2 butts.b2 (song intervalCounter).status2 ∧
      laneDemand lvl3 butts.b3 (song intervalCounter).status3 := by
  rw [← lane_test_iff_demand lvl1 butts.b1 _ h1, ← lane_test_iff_demand lvl2 butts.b2 _ h2,
    ← lane_test_iff_demand lvl3 butts.b3 _ h3]
  unfold checkButtons
  split
  · rename_i h; simp [h]
  · rename_i h
    split
    · rename_i h'; simp [h']
    · rename_i h'
      split
      · rename_i h''; simp [h'']
      · rename_i h''; simp [h, h', h'']

/-! ## Lemmas on the record of a score -/

/-- The record `updateScore` appends for a score from 0 to 30: the time, the
program name, the two digits and two newlines. -/
theorem updateScore_record (fs : Files) (scoreFileName : String) (score : Int)
    (programName time : List Char) (nZero : Int) (h0 : 0 ≤ score) (h30 : score ≤ 30) :
    (updateScore fs scoreFileName score programName time nZero).1 scoreLogPath =
      some (((fs scoreLogPath).getD [] ++
          (time ++ " : ".toList ++ programName ++ " : ".toList)) ++
        [Char.ofNat (48 + score.toNat / 10), Char.ofNat (48 + score.toNat % 10), '\n', '\n']) := by
  rw [updateScore_accept fs scoreFileName score programName time nZero h0 h30]
  simp only [appendFile_same, scoreStr_digits score nZero h0 h30]
  unfold PRINT_MSG
  simp

/-! ## Lemmas on well-formed song files -/

theorem isDigitChar_ne_newline (c : Char) (h : isDigitChar c) : c ≠ '\n' := by
  intro e
  subst e
  exact absurd h (by decide)

/-- One `fgets` into the buffer of 7 takes exactly one line `a b c` with its newline. -/
theorem readLine_songLine (t : Char × Char × Char) (rest : List Char)
    (h1 : t.1 ≠ '\n') (h2 : t.2.1 ≠ '\n') (h3 : t.2.2 ≠ '\n') :
    readLine 6 (songLine t ++ rest) = (songLine t, rest) := by
  have hs : (' ' : Char) ≠ '\n' := by decide
  simp [songLine, readLine, h1, h2, h3, hs]

theorem fgets_songLine (buffer : List Char) (t : Char × Char × Char) (rest : List Char)
    (h1 : t.1 ≠ '\n') (h2 : t.2.1 ≠ '\n') (h3 : t.2.2 ≠ '\n') :
    fgets buffer 7 (songLine t ++ rest) =
      some (songLine t ++ [Char.ofNat 0] ++ buffer.drop 7, rest) := by
  unfold fgets
  rw [if_neg (by simp [songLine])]
  rw [show (7 : Nat) - 1 = 6 by decide, readLine_songLine t rest h1 h2 h3]
  simp [songLine]

theorem statusAt_songLine (t : Char × Char × Char) (tail : List Char) :
    statusAt (songLine t ++ tail) 0 = (t.1.toNat : Int) - 48 ∧
    statusAt (songLine t ++ tail) 2 = (t.2.1.toNat : Int) - 48 ∧
    statusAt (songLine t ++ tail) 4 = (t.2.2.toNat : Int) - 48 := by
  simp [statusAt, songLine]

/-- The loading loop on a file that starts with well-formed lines: row
`intervalCount + j` becomes the row of line `j`, for the lines it reaches, and
every other row stays. -/
theorem loadRows_lines (rest : List Char) (lines : List (Char × Char × Char)) :
    ∀ (todo : Nat) (intervalCount : Int) (buffer : List Char) (song : Int → row),
      (∀ t ∈ lines, isDigitChar t.1 ∧ isDigitChar t.2.1 ∧ isDigitChar t.2.2) →
      (todo ≤ lines.length ∨ rest = []) →
      (∀ (j : Nat) (t : Char × Char × Char), j < todo → lines.get? j = some t →
        loadRows todo intervalCount buffer (lines.flatMap songLine ++ rest) song
          (intervalCount + (j : Int)) = rowOfLine t) ∧
      (∀ k : Int, k < intervalCount ∨ intervalCount + (todo : Int) ≤ k ∨
          intervalCount + (lines.length : Int) ≤ k →
        loadRows todo intervalCount buffer (lines.flatMap songLine ++ rest) song k =
          song k) := by
  induction lines with
  | nil =>
    intro todo intervalCount buffer song _ hshape
    refine ⟨fun j t _ h => by simp at h, ?_⟩
    intro k _
    cases todo with
    | zero => rfl
    | succ todo =>
      rcases hshape with h | h
      · simp at h
      · subst h
        simp [loadRows, fgets]
  | cons t ts ih =>
    intro todo intervalCount buffer song hdig hshape
    cases todo with
    | zero =>
      exact ⟨fun j t h _ => absurd h (by omega), fun k _ => rfl⟩
    | succ todo =>
      obtain ⟨d1, d2, d3⟩ := hdig t (List.mem_cons_self _ _)
      have hfg := fgets_songLine buffer t (ts.flatMap songLine ++ rest)
        (isDigitChar_ne_newline _ d1) (isDigitChar_ne_newline _ d2)
        (isDigitChar_ne_newline _ d3)
      have hstream : (t :: ts).flatMap songLine ++ rest =
          songLine t ++ (ts.flatMap songLine ++ rest) := by
        simp [List.flatMap_cons]
      have hst := statusAt_songLine t ([Char.ofNat 0] ++ buffer.drop 7)
      rw [← List.append_assoc] at hst
      obtain ⟨ih1, ih2⟩ := ih todo (intervalCount + 1)
        (songLine t ++ [Char.ofNat 0] ++ buffer.drop 7)
        (fun k => if k = intervalCount then
            { status1 := statusAt (songLine t ++ [Char.ofNat 0] ++ buffer.drop 7) 0,
              status2 := statusAt (songLine t ++ [Char.ofNat 0] ++ buffer.drop 7) 2,
              status3 := statusAt (songLine t ++ [Char.ofNat 0] ++ buffer.drop 7) 4 }
          else song k)
        (fun u hu => hdig u (List.mem_cons_of_mem _ hu))
        (by
          rcases hshape with h | h
          · left; simp only [List.length_cons] at h; omega
          · right; exact h)
      rw [hstream]
      simp only [loadRows, hfg]
      constructor
      · intro j u hj hu
        cases j with
        | zero =>
          simp only [List.get?_cons_zero, Option.some.injEq] at hu
          subst hu
          simp only [Nat.cast_zero, add_zero]
          rw [ih2 intervalCount (Or.inl (by omega)), if_pos rfl, hst.1, hst.2.1, hst.2.2]
          rfl
        | succ j =>
          simp only [List.get?_cons_succ] at hu
          have := ih1 j u (by omega) hu
          simp only [Nat.cast_add, Nat.cast_one]
          rw [show intervalCount + ((j : Int) + 1) = intervalCount + 1 + (j : Int) by omega]
          exact this
      · intro k hk
        simp only [List.length_cons, Nat.cast_add, Nat.cast_one] at hk
        rw [ih2 k (by omega), if_neg (by omega)]

/-! ## Lemmas on the reading of the configuration file -/

/-- `fgets` takes a whole line when the line fits the room of the buffer. -/
theorem readLine_line (line : List Char) :
    ∀ (room : Nat) (rest : List Char), '\n' ∉ line → line.length < room →
      readLine room (line ++ '\n' :: rest) = (line ++ ['\n'], rest) := by
  induction line with
  | nil =>
    intro room rest _ hroom
    cases room with
    | zero => exact absurd hroom (by simp)
    | succ room => simp [readLine]
  | cons c line ih =>
    intro room rest hnl hroom
    cases room with
    | zero => exact absurd hroom (by simp)
    | succ room =>
      have hc : c ≠ '\n' := fun e => hnl (by simp [e])
      have hline : '\n' ∉ line := fun e => hnl (List.mem_cons_of_mem _ e)
      have := ih room rest hline (by simpa using hroom)
      simp [readLine, hc, this]

theorem fgets_line (buffer line rest : List Char) (hnl : '\n' ∉ line)
    (hlen : line.length + 1 ≤ 499) :
    fgets buffer 500 (line ++ '\n' :: rest) =
      some (line ++ '\n' :: Char.ofNat 0 :: buffer.drop (line.length + 2), rest) := by
  unfold fgets
  rw [if_neg (by simp)]
  rw [show (500 : Nat) - 1 = 499 by decide, readLine_line line 499 rest hnl (by omega)]
  simp

theorem wrapInt32_of_range (x : Int) (h0 : 0 ≤ x) (h : x < 2147483648) : wrapInt32 x = x := by
  unfold wrapInt32
  omega

theorem decimalValue_ge (digits : List Char) :
    ∀ value : Int, (∀ c ∈ digits, isDigitChar c) → 0 ≤ value →
      value ≤ decimalValue digits value := by
  induction digits with
  | nil => intro value _ _; exact le_refl _
  | cons c digits ih =>
    intro value hd h0
    have hc := hd c (List.mem_cons_self _ _)
    unfold isDigitChar at hc
    have := ih (value * 10 + ((c.toNat : Int) - 48))
      (fun d hd' => hd d (List.mem_cons_of_mem _ hd')) (by omega)
    simp only [decimalValue, List.foldl_cons] at this ⊢
    omega

/-- `readIntParam` on digits that denote a value an `int` holds, followed by
the newline and the terminator of the buffer. -/
theorem readIntParam_digits (digits tail : List Char) :
    ∀ value : Int, (∀ c ∈ digits, isDigitChar c) → 0 ≤ value →
      decimalValue digits value < 2147483648 →
      readIntParam (digits ++ '\n' :: Char.ofNat 0 :: tail) value =
        (decimalValue digits value, Char.ofNat 0 :: tail) := by
  induction digits with
  | nil =>
    intro value _ _ _
    have h1 : ('\n' : Char) ≠ Char.ofNat 0 := by decide
    have h2 : ¬ (48 ≤ ('\n' : Char).toNat ∧ ('\n' : Char).toNat ≤ 57) := by decide
    simp [readIntParam, h1, h2, decimalValue]
  | cons c digits ih =>
    intro value hd h0 hv
    have hc := hd c (List.mem_cons_self _ _)
    have hrest : ∀ d ∈ digits, isDigitChar d := fun d hd' => hd d (List.mem_cons_of_mem _ hd')
    have hc0 : c ≠ Char.ofNat 0 := by
      intro e
      subst e
      exact absurd hc (by decide)
    unfold isDigitChar at hc
    have hnext : 0 ≤ value * 10 + ((c.toNat : Int) - 48) := by omega
    have hv' : decimalValue digits (value * 10 + ((c.toNat : Int) - 48)) < 2147483648 := hv
    have hle := decimalValue_ge digits _ hrest hnext
    have hw := wrapInt32_of_range _ hnext (by omega)
    rw [List.cons_append, readIntParam, if_neg hc0, if_pos hc, hw, ih _ hrest hnext hv']
    rfl

/-- `getSizeOfPathStr` on the characters of a path up to the newline: the
size grows by the length of the path and `*i` moves by one at its first
character. -/
theorem getSizeOfPathStr_path (value tail : List Char) :
    ∀ (size : Nat) (i : List Char), ' ' ∉ value → '\n' ∉ value → Char.ofNat 0 ∉ value →
      getSizeOfPathStr (value ++ '\n' :: tail) size i =
        (size + value.length, if size = 0 ∧ value ≠ [] then i.drop 1 else i) := by
  induction value with
  | nil =>
    intro size i _ _ _
    simp [getSizeOfPathStr]
  | cons c value ih =>
    intro size i hsp hnl hz
    have c1 : c ≠ ' ' := fun e => hsp (by simp [e])
    have c2 : c ≠ '\n' := fun e => hnl (by simp [e])
    have c3 : c ≠ Char.ofNat 0 := fun e => hz (by simp [e])
    rw [List.cons_append, getSizeOfPathStr, if_neg (by simp [c2, c3]), if_pos c1,
      ih _ _ (fun e => hsp (List.mem_cons_of_mem _ e)) (fun e => hnl (List.mem_cons_of_mem _ e))
        (fun e => hz (List.mem_cons_of_mem _ e))]
    by_cases hs : size = 0
    · simp [hs]
      omega
    · simp [hs]
      omega

/-- `readCharParam` after `=` on a space, a path and the newline: the path. -/
theorem readCharParam_path (value tail : List Char) (hsp : ' ' ∉ value) (hnl : '\n' ∉ value)
    (hz : Char.ofNat 0 ∉ value) :
    readCharParam (' ' :: (value ++ '\n' :: tail)) =
      (value, if value = [] then ' ' :: '\n' :: tail else '\n' :: tail) := by
  have h1 : (' ' : Char) ≠ Char.ofNat 0 := by decide
  have h2 : (' ' : Char) ≠ '\n' := by decide
  have hsize : getSizeOfPathStr (' ' :: (value ++ '\n' :: tail)) 0
      (' ' :: (value ++ '\n' :: tail)) =
      (value.length, if value ≠ [] then value ++ '\n' :: tail
        else ' ' :: (value ++ '\n' :: tail)) := by
    rw [getSizeOfPathStr, if_neg (by simp [h1, h2]), if_neg (by simp),
      getSizeOfPathStr_path value tail 0 _ hsp hnl hz]
    simp
  unfold readCharParam
  rw [hsize]
  by_cases hv : value = []
  · subst hv
    simp
  · simp [hv]

theorem scanParams_nul (fuel : Nat) (tail : List Char) (st : ParamArrays) :
    scanParams (fuel + 1) (Char.ofNat 0 :: tail) st = some st := by
  rw [scanParams, if_pos rfl]

/-- The scan passes the characters that are neither `=` nor the terminator. -/
theorem scanParams_skip (pre : List Char) :
    ∀ (fuel : Nat) (rest : List Char) (st : ParamArrays),
      (∀ c ∈ pre, c ≠ Char.ofNat 0 ∧ c ≠ '=') →
      scanParams (pre.length + fuel) (pre ++ rest) st = scanParams fuel rest st := by
  induction pre with
  | nil => intro fuel rest st _; simp
  | cons c pre ih =>
    intro fuel rest st h
    have hc := h c (List.mem_cons_self _ _)
    rw [show (c :: pre).length + fuel = (pre.length + fuel) + 1 by simp; omega,
      List.cons_append, scanParams, if_neg hc.1, if_neg hc.2]
    exact ih fuel rest st (fun d hd => h d (List.mem_cons_of_mem _ hd))

theorem readConfigLine_comment (text : List Char) (st : ParamArrays) :
    readConfigLine ('#' :: text) st = some st := by
  unfold readConfigLine
  simp

theorem key_chars (key : List Char) (h : wellFormedKey key) :
    ∀ c ∈ key ++ [' '], c ≠ Char.ofNat 0 ∧ c ≠ '=' := by
  obtain ⟨heq, -, hz, -⟩ := h
  intro c hc
  rcases List.mem_append.mp hc with hc | hc
  · exact ⟨fun e => hz (e ▸ hc), fun e => heq (e ▸ hc)⟩
  · simp only [List.mem_singleton] at hc
    subst hc
    exact ⟨by decide, by decide⟩

theorem key_head (key rest : List Char) (h : wellFormedKey key) :
    (key ++ ' ' :: rest).head? ≠ some '#' := by
  obtain ⟨-, -, -, hh⟩ := h
  cases key with
  | nil => simp
  | cons c key => simpa using hh

/-- A line `key = digits` stores the decimal value of the digits in the next
integer slot. -/
theorem readConfigLine_number (key digits tail : List Char) (st : ParamArrays)
    (hwf : (ConfigLine.number key digits).wellFormed) (hlt : st.intInput < 3)
    (hzero : st.intParamArr st.intInput = 0) :
    readConfigLine ((ConfigLine.number key digits).body ++ '\n' :: Char.ofNat 0 :: tail) st =
      some (applyLine st (ConfigLine.number key digits)) := by
  obtain ⟨hkey, hdig, hval, -⟩ := hwf
  have hbody : (ConfigLine.number key digits).body ++ '\n' :: Char.ofNat 0 :: tail =
      (key ++ [' ']) ++ '=' :: ' ' :: (digits ++ '\n' :: Char.ofNat 0 :: tail) := by
    simp [ConfigLine.body]
  have hhead : ((ConfigLine.number key digits).body ++ '\n' :: Char.ofNat 0 :: tail).head? ≠
      some '#' := by
    rw [hbody, List.append_assoc]
    exact key_head key _ hkey
  have hlen : ((ConfigLine.number key digits).body ++ '\n' :: Char.ofNat 0 :: tail).length + 1 =
      (key ++ [' ']).length + ((digits.length + tail.length + 4) + 1) := by
    rw [hbody]
    simp only [List.length_append, List.length_cons, List.length_nil]
    omega
  have hread : readIntParam (' ' :: (digits ++ '\n' :: Char.ofNat 0 :: tail)) 0 =
      (decimalValue digits 0, Char.ofNat 0 :: tail) := by
    rw [readIntParam, if_neg (by decide), if_neg (by decide)]
    exact readIntParam_digits digits tail 0 hdig (le_refl 0) hval
  unfold readConfigLine
  rw [if_neg hhead, hlen, hbody, scanParams_skip _ _ _ _ (key_chars key hkey), scanParams,
    if_neg (by decide), if_pos rfl, if_pos hlt, hzero, hread]
  exact scanParams_nul _ _ _

/-- A line `key = path` stores the path in the next string slot once the
three integer slots are taken. -/
theorem readConfigLine_path (key value tail : List Char) (st : ParamArrays)
    (hwf : (ConfigLine.path key value).wellFormed) (hint : st.intInput = 3)
    (hlt : st.strInput < 3) :
    readConfigLine ((ConfigLine.path key value).body ++ '\n' :: Char.ofNat 0 :: tail) st =
      some (applyLine st (ConfigLine.path key value)) := by
  obtain ⟨hkey, hsp, hnl, hz, -⟩ := hwf
  have hbody : (ConfigLine.path key value).body ++ '\n' :: Char.ofNat 0 :: tail =
      (key ++ [' ']) ++ '=' :: ' ' :: (value ++ '\n' :: Char.ofNat 0 :: tail) := by
    simp [ConfigLine.body]
  have hhead : ((ConfigLine.path key value).body ++ '\n' :: Char.ofNat 0 :: tail).head? ≠
      some '#' := by
    rw [hbody, List.append_assoc]
    exact key_head key _ hkey
  have hlen : ((ConfigLine.path key value).body ++ '\n' :: Char.ofNat 0 :: tail).length + 1 =
      (key ++ [' ']).length + ((value.length + tail.length + 4) + 1) := by
    rw [hbody]
    simp only [List.length_append, List.length_cons, List.length_nil]
    omega
  have hnot : ¬ st.intInput < 3 := by omega
  unfold readConfigLine
  rw [if_neg hhead, hlen, hbody, scanParams_skip _ _ _ _ (key_chars key hkey), scanParams,
    if_neg (by decide), if_pos rfl, if_neg hnot, if_pos hlt,
    readCharParam_path value _ hsp hnl hz]
  by_cases hv : value = []
  · subst hv
    simp only [if_true, List.length_nil, Nat.zero_add]
    rw [show tail.length + 4 = [' ', '\n'].length + ((tail.length + 1) + 1) by simp; omega,
      show ' ' :: '\n' :: Char.ofNat 0 :: tail = [' ', '\n'] ++ Char.ofNat 0 :: tail by rfl,
      scanParams_skip _ _ _ _ (by decide), scanParams_nul]
    rfl
  · simp only [if_neg hv]
    rw [show value.length + tail.length + 4 = ['\n'].length + ((value.length + tail.length + 2) + 1)
        by simp; omega,
      show '\n' :: Char.ofNat 0 :: tail = ['\n'] ++ Char.ofNat 0 :: tail by rfl,
      scanParams_skip _ _ _ _ (by decide), scanParams_nul]
    rfl

/-- A well-formed line has no newline inside and fits the line buffer. -/
theorem wellFormed_body (l : ConfigLine) (h : l.wellFormed) :
    '\n' ∉ l.body ∧ l.body.length + 1 ≤ 499 := by
  cases l with
  | comment text =>
    obtain ⟨hnl, hlen⟩ := h
    refine ⟨?_, ?_⟩
    · intro hm
      rcases List.mem_cons.mp hm with e | e
      · exact absurd e (by decide)
      · exact hnl e
    · simp only [ConfigLine.body, List.length_cons]
      omega
  | number key digits =>
    obtain ⟨⟨-, hknl, -, -⟩, hdig, -, hlen⟩ := h
    refine ⟨?_, ?_⟩
    · intro hm
      simp only [ConfigLine.body, List.mem_append] at hm
      rcases hm with (e | e) | e
      · exact hknl e
      · exact absurd e (by decide)
      · exact isDigitChar_ne_newline _ (hdig _ e) rfl
    · simp only [ConfigLine.body, List.length_append]
      have : " = ".toList.length = 3 := rfl
      omega
  | path key value =>
    obtain ⟨⟨-, hknl, -, -⟩, -, hnl, -, hlen⟩ := h
    refine ⟨?_, ?_⟩
    · intro hm
      simp only [ConfigLine.body, List.mem_append] at hm
      rcases hm with (e | e) | e
      · exact hknl e
      · exact absurd e (by decide)
      · exact hnl e
    · simp only [ConfigLine.body, List.length_append]
      have : " = ".toList.length = 3 := rfl
      omega

/-- One well-formed line in the line buffer changes the arrays as
`applyLine` says. -/
theorem readConfigLine_line (l : ConfigLine) (tail : List Char) (st : ParamArrays)
    (hwf : l.wellFormed) (hord : linesInOrder st.intInput st.strInput [l])
    (hzero : ∀ k, st.intInput ≤ k → st.intParamArr k = 0) :
    readConfigLine (l.body ++ '\n' :: Char.ofNat 0 :: tail) st = some (applyLine st l) := by
  cases l with
  | comment text => exact readConfigLine_comment _ st
  | number key digits =>
    exact readConfigLine_number key digits tail st hwf hord.1 (hzero _ (le_refl _))
  | path key value => exact readConfigLine_path key value tail st hwf hord.1 hord.2.1

/-- The loop of `readConfig` over a file of well-formed lines in order
leaves the arrays that the lines give one after the other. -/
theorem readConfigLines_lines (lines : List ConfigLine) :
    ∀ (fuel : Nat) (buffer : List Char) (st : ParamArrays),
      (∀ l ∈ lines, l.wellFormed) → linesInOrder st.intInput st.strInput lines →
      (∀ k, st.intInput ≤ k → st.intParamArr k = 0) → lines.length < fuel →
      readConfigLines fuel buffer (lines.flatMap ConfigLine.render) st =
        some (lines.foldl applyLine st) := by
  induction lines with
  | nil =>
    intro fuel buffer st _ _ _ hfuel
    obtain ⟨f, rfl⟩ : ∃ f, fuel = f + 1 := ⟨fuel - 1, by simp at hfuel; omega⟩
    simp [readConfigLines, fgets]
  | cons l ls ih =>
    intro fuel buffer st hwf hord hzero hfuel
    obtain ⟨f, rfl⟩ : ∃ f, fuel = f + 1 := ⟨fuel - 1, by simp at hfuel; omega⟩
    have hl := hwf l (List.mem_cons_self _ _)
    have hstream : (l :: ls).flatMap ConfigLine.render =
        l.body ++ '\n' :: ls.flatMap ConfigLine.render := by
      simp [List.flatMap_cons, ConfigLine.render]
    have hone : linesInOrder st.intInput st.strInput [l] := by
      cases l <;> simp_all [linesInOrder]
    have hrest : linesInOrder (applyLine st l).intInput (applyLine st l).strInput ls := by
      cases l with
      | comment text => exact hord
      | number key digits => exact hord.2
      | path key value => exact hord.2.2
    have hzero1 : ∀ k, (applyLine st l).intInput ≤ k → (applyLine st l).intParamArr k = 0 := by
      cases l with
      | comment text => exact hzero
      | number key digits =>
        intro k hk
        have hk1 : st.intInput + 1 ≤ k := hk
        show (if k = st.intInput then decimalValue digits 0 else st.intParamArr k) = 0
        rw [if_neg (by omega)]
        exact hzero k (by omega)
      | path key value => exact hzero
    rw [hstream, readConfigLines,
      fgets_line buffer l.body _ (wellFormed_body l hl).1 (wellFormed_body l hl).2]
    simp only []
    rw [readConfigLine_line l _ st hl hone hzero]
    simp only [List.foldl_cons]
    exact ih f _ _ (fun m hm => hwf m (List.mem_cons_of_mem _ hm)) hrest hzero1
      (by simp at hfuel; omega)

/-- Comment lines change neither the order of the others nor the arrays. -/
theorem linesInOrder_filter (lines : List ConfigLine) :
    ∀ (a b : Nat), linesInOrder a b (lines.filter ConfigLine.isParam) → linesInOrder a b lines := by
  induction lines with
  | nil => intro a b h; exact h
  | cons l ls ih =>
    intro a b h
    cases l with
    | comment text => exact ih a b h
    | number key digits => exact ⟨h.1, ih _ _ h.2⟩
    | path key value => exact ⟨h.1, h.2.1, ih _ _ h.2.2⟩

theorem foldl_applyLine_filter (lines : List ConfigLine) :
    ∀ (st : ParamArrays),
      lines.foldl applyLine st = (lines.filter ConfigLine.isParam).foldl applyLine st := by
  induction lines with
  | nil => intro st; rfl
  | cons l ls ih =>
    intro st
    cases l with
    | comment text => exact ih st
    | number key digits => exact ih _
    | path key value => exact ih _

theorem render_length_le (lines : List ConfigLine) :
    lines.length ≤ (lines.flatMap ConfigLine.render).length := by
  induction lines with
  | nil => simp
  | cons l ls ih =>
    simp only [List.flatMap_cons, List.length_cons, List.length_append, ConfigLine.render,
      List.length_nil]
    omega

theorem copyStr_of_no_nul (s : List Char) (h : Char.ofNat 0 ∉ s) : copyStr s = s := by
  unfold copyStr
  rw [List.takeWhile_eq_self_iff]
  intro c hc
  exact decide_eq_true (fun e => h (e ▸ hc))

/-! ## The claims -/

/-- C1: a pass of the round loop increments `correct` exactly when it is the
boundary of its interval (the deadline test holds), the interval index `k` is
positive, and some pass of interval `k` read the strum sensor broken and had
`checkButtons` return true against row `k - 1`; every other pass leaves
`correct` as it is.  So an interval none of whose passes reads a strum awards
no point, whatever the buttons read. -/
theorem round_awards_iff (g : Setup) (now : Int) (ps : List Poll) (sp : RoundState × Poll)
    (hmem : sp ∈ roundTrace g (roundStart now) ps) :
    ((roundCycle g sp.1 sp.2).1.correct = sp.1.correct + 1 ↔
      intervalOver g sp.1 sp.2 = true ∧ 0 < sp.1.intervalCounter ∧
      ∃ sq ∈ roundTrace g (roundStart now) ps,
        sq.1.intervalCounter = sp.1.intervalCounter ∧
        ifStrummed sq.2.strumLevel = true ∧
        checkButtons sq.2.lvl1 sq.2.lvl2 sq.2.lvl3 (sp.1.intervalCounter - 1)
          g.butts g.song = true) ∧
    ((roundCycle g sp.1 sp.2).1.correct = sp.1.correct ∨
      (roundCycle g sp.1 sp.2).1.correct = sp.1.correct + 1) ∧
    ((∀ sq ∈ roundTrace g (roundStart now) ps,
        sq.1.intervalCounter = sp.1.intervalCounter → ifStrummed sq.2.strumLevel = false) →
      (roundCycle g sp.1 sp.2).1.correct = sp.1.correct) := by
  have key : intervalOver g sp.1 sp.2 = true →
      ((strumHit g sp.1 sp.2 || sp.1.gotItRight) = true ↔
        0 < sp.1.intervalCounter ∧
        ∃ sq ∈ roundTrace g (roundStart now) ps,
          sq.1.intervalCounter = sp.1.intervalCounter ∧
          ifStrummed sq.2.strumLevel = true ∧
          checkButtons sq.2.lvl1 sq.2.lvl2 sq.2.lvl3 (sp.1.intervalCounter - 1)
            g.butts g.song = true) := by
    intro hover
    rw [roundTrace_got_iff g ps _ sp hmem hover]
    constructor
    · rintro (⟨_, hg⟩ | ⟨sq, hsq, hic, hh⟩)
      · simp [roundStart] at hg
      · unfold strumHit at hh
        simp only [Bool.and_eq_true, decide_eq_true_eq] at hh
        obtain ⟨hs, hpos, hc⟩ := hh
        rw [hic] at hpos hc
        exact ⟨hpos, sq, hsq, hic, hs, hc⟩
    · rintro ⟨hpos, sq, hsq, hic, hs, hc⟩
      refine Or.inr ⟨sq, hsq, hic, ?_⟩
      unfold strumHit
      simp only [Bool.and_eq_true, decide_eq_true_eq]
      rw [hic]
      exact ⟨hs, hpos, hc⟩
  have hcor := roundCycle_correct g sp.1 sp.2
  refine ⟨?_, ?_, ?_⟩
  · constructor
    · intro h
      rw [h] at hcor
      split at hcor
      · rename_i hc
        exact ⟨hc.1, (key hc.1).mp hc.2⟩
      · omega
    · rintro ⟨hover, hrest⟩
      rw [hcor, if_pos ⟨hover, (key hover).mpr hrest⟩]
  · rw [hcor]
    split
    · exact Or.inr rfl
    · exact Or.inl rfl
  · intro hno
    rw [hcor]
    split
    · rename_i hc
      obtain ⟨_, sq, hsq, hic, hs, _⟩ := (key hc.1).mp hc.2
      rw [hno sq hsq hic] at hs
      exact absurd hs (by simp)
    · rfl

/-- C1 at a concrete round: in the round `nineHits` the boundary of interval 1,
which reads a strum with the buttons of row 0, increments `correct`. -/
theorem round_awards_iff_witness :
    (roundCycle (alternatingSetup 9)
      { intervalCounter := 1, correct := 0, gotItRight := false, currentTime := 1 }
      (strumBoundary 0 2)).1.correct = 0 + 1 :=
  (round_awards_iff (alternatingSetup 9) 0 nineHits
    ({ intervalCounter := 1, correct := 0, gotItRight := false, currentTime := 1 },
      strumBoundary 0 2) (by decide)).1.mpr (by decide)

/-- C2: with the three flags of the row each 0 or 1, `checkButtons` returns true
exactly when on each lane the button reads pressed (level bit 0, the test of
`anythingPressed`) if and only if the lane flag is 1; so a mismatch on one lane
makes it return false.  Each lane is taken from the register read that
`checkButtons` makes for it; with one register value for the three reads this
is the claim for that value. -/
theorem checkButtons_iff_lanes_match (lvl1 lvl2 lvl3 : Nat) (intervalCounter : Int)
    (butts : buttons) (song : Int → row)
    (h1 : (song intervalCounter).status1 = 0 ∨ (song intervalCounter).status1 = 1)
    (h2 : (song intervalCounter).status2 = 0 ∨ (song intervalCounter).status2 = 1)
    (h3 : (song intervalCounter).status3 = 0 ∨ (song intervalCounter).status3 = 1) :
    (checkButtons lvl1 lvl2 lvl3 intervalCounter butts song = true ↔
      ((levelLow lvl1 butts.b1 = true ↔ (song intervalCounter).status1 = 1) ∧
       (levelLow lvl2 butts.b2 = true ↔ (song intervalCounter).status2 = 1) ∧
       (levelLow lvl3 butts.b3 = true ↔ (song intervalCounter).status3 = 1))) ∧
    (¬ (levelLow lvl1 butts.b1 = true ↔ (song intervalCounter).status1 = 1) ∨
       ¬ (levelLow lvl2 butts.b2 = true ↔ (song intervalCounter).status2 = 1) ∨
       ¬ (levelLow lvl3 butts.b3 = true ↔ (song intervalCounter).status3 = 1) →
      checkButtons lvl1 lvl2 lvl3 intervalCounter butts song = false) := by
  have key := checkButtons_eq_true_iff
    { strumLevel := 0, lvl1 := lvl1, lvl2 := lvl2, lvl3 := lvl3, timeAtCheck := 0,
      timeAtReset := 0 } intervalCounter butts song ⟨h1, h2, h3⟩
  unfold buttonsMatch at key
  simp only at key
  refine ⟨key, ?_⟩
  intro hbad
  cases hc : checkButtons lvl1 lvl2 lvl3 intervalCounter butts song
  · rfl
  · obtain ⟨m1, m2, m3⟩ := key.mp hc
    rcases hbad with h | h | h
    · exact absurd m1 h
    · exact absurd m2 h
    · exact absurd m3 h

/-- C2 at a concrete input: with the pins of `main`, buttons 1 and 3 pressed and
button 2 released (only bit 10 set), `checkButtons` accepts the row `1 0 1`. -/
theorem checkButtons_iff_lanes_match_witness :
    checkButtons 1024 1024 1024 0 mainButts
      (fun _ => { status1 := 1, status2 := 0, status3 := 1 }) = true :=
  (checkButtons_iff_lanes_match 1024 1024 1024 0 mainButts
    (fun _ => { status1 := 1, status2 := 0, status3 := 1 })
    (by decide) (by decide) (by decide)).1.mpr (by decide)

/-- C3 as stated fails: for round length 2 both thresholds are 0 and the
range `threshold1 ≤ s < threshold2` of Medium is empty; the previous score 0
equals `threshold1`, and `assignSong` does not pick Medium.  (The tier it
picks there, Hard, is the outcome for short rounds that the comments of `main`
speak against; only "not Medium" is used here.) -/
theorem assignSong_at_threshold1_not_medium :
    (2 : Int).tdiv 3 = 0 ∧ 2 * (2 : Int).tdiv 3 = 0 ∧
    getPreviousScore (logWith 0) scoreLogPath = some 0 ∧
    (assignSong (logWith 0) alternatingSong scoreLogPath 2 []).map Assigned.tier ≠
      some Tier.Medium := by
  decide

/-- C3, amended: for a round length `L ≥ 3`, with `threshold1 = L / 3`
(C division) and `threshold2 = 2 * threshold1`, the thresholds satisfy
`0 < threshold1 < threshold2`, and `assignSong` called on a log whose previous
score is `s` picks Easy if `s < threshold1`, Medium if
`threshold1 ≤ s < threshold2` and Hard otherwise; a score equal to
`threshold1` selects Medium and a score equal to `threshold2` selects Hard.
Round lengths below 3 are left out. -/
theorem assignSong_tier (fs : Files) (song : Int → row) (scoreFileName : String)
    (L : Int) (buffer : List Char) (s : Int)
    (hs : getPreviousScore fs scoreFileName = some s) (hL : 3 ≤ L) :
    ∃ a : Assigned, assignSong fs song scoreFileName L buffer = some a ∧
      (0 < L.tdiv 3 ∧ L.tdiv 3 < 2 * L.tdiv 3) ∧
      (s < L.tdiv 3 → a.tier = Tier.Easy) ∧
      (L.tdiv 3 ≤ s → s < 2 * L.tdiv 3 → a.tier = Tier.Medium) ∧
      (¬ s < L.tdiv 3 → ¬ (L.tdiv 3 ≤ s ∧ s < 2 * L.tdiv 3) → a.tier = Tier.Hard) ∧
      (s = L.tdiv 3 → a.tier = Tier.Medium) ∧
      (s = 2 * L.tdiv 3 → a.tier = Tier.Hard) := by
  have hpos := tdiv_three_pos L hL
  unfold assignSong
  rw [hs]
  refine ⟨_, rfl, ⟨by omega, by omega⟩, ?_, ?_, ?_, ?_, ?_⟩ <;> simp only [chooseTier]
  · intro h; rw [if_pos h]
  · intro h1 h2; rw [if_neg (by omega), if_pos ⟨h1, h2⟩]
  · intro h1 h2; rw [if_neg h1, if_neg h2]
  · intro h1
    rw [if_neg (by omega), if_pos (by constructor <;> omega)]
  · intro h1
    rw [if_neg (by omega), if_neg (by omega)]

/-- C3 at the input of the spec: previous score 10 and round length 30 give
thresholds 10 and 20 and the tier Medium. -/
theorem assignSong_tier_witness :
    (30 : Int).tdiv 3 = 10 ∧
    ∃ a : Assigned, assignSong (logWith 10) alternatingSong scoreLogPath 30 [] = some a ∧
      a.tier = Tier.Medium := by
  refine ⟨by decide, ?_⟩
  obtain ⟨a, ha, _, _, _, _, hmed, _⟩ :=
    assignSong_tier (logWith 10) alternatingSong scoreLogPath 30 [] 10 (by decide) (by decide)
  exact ⟨a, ha, hmed (by decide)⟩

/-- C4: for a round length `L ≥ 0`, when the round loop has exited (its
condition is false) the score `correct` satisfies `0 ≤ correct ≤ L`, for every
note sequence and every stream of polls. -/
theorem round_final_score_bounds (g : Setup) (now : Int) (ps : List Poll)
    (hL : 0 ≤ g.MAX_INTERVALS)
    (hdone : roundGoesOn g (roundLoop g (roundStart now) ps) = false) :
    0 ≤ (roundLoop g (roundStart now) ps).correct ∧
      (roundLoop g (roundStart now) ps).correct ≤ g.MAX_INTERVALS := by
  have h := roundLoop_invariant g ps (roundStart now) ⟨le_refl _, le_refl _, hL⟩
  have hexit : g.MAX_INTERVALS ≤ (roundLoop g (roundStart now) ps).intervalCounter := by
    simpa [roundGoesOn] using hdone
  have hlast : (roundLoop g (roundStart now) ps).intervalCounter = g.MAX_INTERVALS :=
    le_antisymm h.2.2 hexit
  exact ⟨h.1, hlast ▸ h.2.1⟩

/-- C4 at a concrete round: the round `nineHits` of 9 intervals exits with a
score between 0 and 9. -/
theorem round_final_score_bounds_witness :
    0 ≤ (roundLoop (alternatingSetup 9) (roundStart 0) nineHits).correct ∧
      (roundLoop (alternatingSetup 9) (roundStart 0) nineHits).correct ≤ 9 :=
  round_final_score_bounds (alternatingSetup 9) 0 nineHits (by decide) (by decide)

/-- C5: in every state the round loop reaches from `intervalCounter = 0`,
`correct = 0`, for a round length `L ≥ 0`: `0 ≤ correct ≤ intervalCounter ≤ L`;
the loop condition is false exactly when `intervalCounter = L`; a further pass
adds exactly one to `intervalCounter` when it is an interval boundary and
leaves it unchanged otherwise; and `intervalCounter` never decreases however
the run continues. -/
theorem round_invariant (g : Setup) (now : Int) (ps : List Poll)
    (hL : 0 ≤ g.MAX_INTERVALS) :
    (0 ≤ (roundLoop g (roundStart now) ps).correct ∧
      (roundLoop g (roundStart now) ps).correct ≤
        (roundLoop g (roundStart now) ps).intervalCounter ∧
      (roundLoop g (roundStart now) ps).intervalCounter ≤ g.MAX_INTERVALS) ∧
    (roundGoesOn g (roundLoop g (roundStart now) ps) = false ↔
      (roundLoop g (roundStart now) ps).intervalCounter = g.MAX_INTERVALS) ∧
    (∀ p : Poll,
      (roundCycle g (roundLoop g (roundStart now) ps) p).1.intervalCounter =
        if intervalOver g (roundLoop g (roundStart now) ps) p = true
        then (roundLoop g (roundStart now) ps).intervalCounter + 1
        else (roundLoop g (roundStart now) ps).intervalCounter) ∧
    (∀ qs : List Poll,
      (roundLoop g (roundStart now) ps).intervalCounter ≤
        (roundLoop g (roundStart now) (ps ++ qs)).intervalCounter) := by
  have h := roundLoop_invariant g ps (roundStart now) ⟨le_refl _, le_refl _, hL⟩
  refine ⟨h, ?_, ?_, ?_⟩
  · unfold roundGoesOn
    simp only [decide_eq_false_iff_not, not_lt]
    constructor
    · intro h'; exact le_antisymm h.2.2 h'
    · intro h'; exact le_of_eq h'.symm
  · intro p; exact roundCycle_counter g _ p
  · intro qs
    rw [roundLoop_append]
    exact roundLoop_counter_ge g qs _

/-- C5 at a concrete state: after the first four passes of `nineHits` the
invariant `0 ≤ correct ≤ intervalCounter ≤ 9` holds. -/
theorem round_invariant_witness :
    0 ≤ (roundLoop (alternatingSetup 9) (roundStart 0) (nineHits.take 4)).correct ∧
      (roundLoop (alternatingSetup 9) (roundStart 0) (nineHits.take 4)).correct ≤
        (roundLoop (alternatingSetup 9) (roundStart 0) (nineHits.take 4)).intervalCounter ∧
      (roundLoop (alternatingSetup 9) (roundStart 0) (nineHits.take 4)).intervalCounter ≤ 9 :=
  (round_invariant (alternatingSetup 9) 0 (nineHits.take 4) (by decide)).1

/-- C6: for a round length `L ≥ 1` and a note sequence whose rows
`0 .. L-1` have flags 0 or 1, if every interval `k` with `1 ≤ k < L` has a pass
in which the strum sensor reads broken and the buttons exactly match row
`k - 1`, then the score with which the round loop exits is `L - 1`. -/
theorem round_all_hit_score (g : Setup) (now : Int) (ps : List Poll)
    (hL : 1 ≤ g.MAX_INTERVALS)
    (hflags : ∀ k : Int, 0 ≤ k → k < g.MAX_INTERVALS → flagsAreBits (g.song k))
    (hhit : ∀ k : Int, 1 ≤ k → k < g.MAX_INTERVALS →
      ∃ sq ∈ roundTrace g (roundStart now) ps, sq.1.intervalCounter = k ∧
        ifStrummed sq.2.strumLevel = true ∧ buttonsMatch g.butts sq.2 (g.song (k - 1)))
    (hdone : roundGoesOn g (roundLoop g (roundStart now) ps) = false) :
    (roundLoop g (roundStart now) ps).correct = g.MAX_INTERVALS - 1 := by
  have h := roundLoop_all_hit g ps (roundStart now) (le_refl _) (by simp [roundStart]; omega)
    (by intro _; rfl)
    (by
      intro k hk1 _ hk3
      obtain ⟨sq, hsq, hk, hs, hm⟩ := hhit k hk1 hk3
      refine Or.inr ⟨sq, hsq, hk, ?_⟩
      unfold strumHit
      simp only [Bool.and_eq_true, decide_eq_true_eq]
      refine ⟨hs, by omega, ?_⟩
      rw [hk]
      exact (checkButtons_eq_true_iff sq.2 (k - 1) g.butts g.song
        (hflags (k - 1) (by omega) (by omega))).mpr hm)
    hdone
  rw [h]
  simp only [roundStart]
  rw [if_pos ⟨trivial, by omega⟩]
  omega

/-- C6 at the input of the spec: 9 rows alternating all flags set and all flags
clear, a strum with matching buttons in every interval after the first: the
final score is 8. -/
theorem round_all_hit_score_witness :
    (roundLoop (alternatingSetup 9) (roundStart 0) nineHits).correct = 9 - 1 :=
  round_all_hit_score (alternatingSetup 9) 0 nineHits (by decide)
    (by
      intro k _ _
      unfold flagsAreBits alternatingSetup alternatingSong
      simp only
      split <;> decide)
    (by
      intro k h1 h9
      have h9' : k < 9 := h9
      interval_cases k <;> decide)
    (by decide)

/-- C7: for a round length `L ≥ 1`, when no pass of the round reads the strum
sensor broken and the round loop has exited, the final score is 0 and the clips
played, each with the interval at whose boundary it is played, are exactly the
"incorrect" clip once for each interval `1, 2, .., L-1` in this order: the
"correct" clip is never played and interval 0 plays no clip. -/
theorem round_no_strum_outcome (g : Setup) (now : Int) (ps : List Poll)
    (hL : 1 ≤ g.MAX_INTERVALS)
    (hno : ∀ sq ∈ roundTrace g (roundStart now) ps, ifStrummed sq.2.strumLevel = false)
    (hdone : roundGoesOn g (roundLoop g (roundStart now) ps) = false) :
    (roundLoop g (roundStart now) ps).correct = 0 ∧
    clipLog g (roundStart now) ps =
      (List.range (g.MAX_INTERVALS - 1).toNat).map
        fun (i : Nat) => (1 + (i : Int), Clip.badSoundPath) := by
  obtain ⟨h1, h2⟩ := roundLoop_no_strum g ps (roundStart now) rfl hno hdone
  refine ⟨h1, ?_⟩
  rw [h2]
  obtain ⟨n, hn⟩ : ∃ n : Nat, (g.MAX_INTERVALS - (roundStart now).intervalCounter).toNat = n + 1 :=
    ⟨(g.MAX_INTERVALS - 1).toNat, by simp only [roundStart]; omega⟩
  have hn' : (g.MAX_INTERVALS - 1).toNat = n := by
    simp only [roundStart] at hn
    omega
  rw [hn, hn', missClips]
  simp only [roundStart, lt_self_iff_false, if_false, List.nil_append, zero_add]
  exact missClips_of_pos n 1 (by norm_num)

/-- C7 at a concrete round: three intervals without a strum give score 0 and
the "incorrect" clip at the boundaries of intervals 1 and 2 only. -/
theorem round_no_strum_outcome_witness :
    (roundLoop (alternatingSetup 3) (roundStart 0) idleRound).correct = 0 ∧
    clipLog (alternatingSetup 3) (roundStart 0) idleRound =
      [(1, Clip.badSoundPath), (2, Clip.badSoundPath)] :=
  round_no_strum_outcome (alternatingSetup 3) 0 idleRound (by decide) (by decide) (by decide)

/-- C8: every pass of the round loop that belongs to the first interval
(`intervalCounter = 0`), its boundary included, plays no "incorrect" clip and
leaves the score as it is, whatever the sensors and buttons read; so the clip
log of the round has no "incorrect" clip for interval 0. -/
theorem round_first_interval_grace (g : Setup) (now : Int) (ps : List Poll)
    (sp : RoundState × Poll) (hmem : sp ∈ roundTrace g (roundStart now) ps)
    (hfirst : sp.1.intervalCounter = 0) :
    Effect.playSound Clip.badSoundPath ∉ (roundCycle g sp.1 sp.2).2 ∧
    (roundCycle g sp.1 sp.2).1.correct = sp.1.correct ∧
    (0, Clip.badSoundPath) ∉ clipLog g (roundStart now) ps := by
  have hgot := (roundTrace_first_interval g now ps sp hmem).2 hfirst
  have hhit := strumHit_of_counter_zero g sp.1 sp.2 hfirst
  have hclips : ∀ sq ∈ roundTrace g (roundStart now) ps, sq.1.intervalCounter = 0 →
      clipsOf sq.1.intervalCounter (roundCycle g sq.1 sq.2).2 = [] := by
    intro sq hsq hz
    rw [clipsOf_roundCycle, strumHit_of_counter_zero g sq.1 sq.2 hz,
      (roundTrace_first_interval g now ps sq hsq).2 hz]
    simp [hz]
  refine ⟨?_, ?_, ?_⟩
  · intro hplay
    have hin : (sp.1.intervalCounter, Clip.badSoundPath) ∈
        clipsOf sp.1.intervalCounter (roundCycle g sp.1 sp.2).2 := by
      unfold clipsOf
      rw [List.mem_filterMap]
      exact ⟨_, hplay, rfl⟩
    rw [hclips sp hmem hfirst] at hin
    simp at hin
  · rw [roundCycle_correct, hhit, hgot]
    simp
  · intro hin
    unfold clipLog at hin
    rw [List.mem_flatMap] at hin
    obtain ⟨sq, hsq, hq⟩ := hin
    have hz : sq.1.intervalCounter = 0 := by
      unfold clipsOf at hq
      rw [List.mem_filterMap] at hq
      obtain ⟨e, _, he⟩ := hq
      cases e <;> simp at he
      exact he.1
    rw [hclips sq hsq hz] at hq
    simp at hq

/-- C8 at a concrete round: the idle boundary of interval 0 of `idleRound`
plays no "incorrect" clip. -/
theorem round_first_interval_grace_witness :
    Effect.playSound Clip.badSoundPath ∉
      (roundCycle (alternatingSetup 3) (roundStart 0) (idleBoundary 1)).2 :=
  (round_first_interval_grace (alternatingSetup 3) 0 idleRound
    (roundStart 0, idleBoundary 1) (by decide) (by decide)).1

/-- C9 as stated fails: with round length 32 the score 31 lies in `[0, L]`,
`updateScore` rejects it, and `getPreviousScore` still returns the score 5 of
the record before. -/
theorem score_round_trip_fails_above_30 :
    (0 : Int) ≤ 31 ∧ (31 : Int) ≤ 32 ∧
    getPreviousScore (updateScore (logWith 5) scoreLogPath 31 sampleName sampleTime 0).1
      scoreLogPath = some 5 ∧
    getPreviousScore (updateScore (logWith 5) scoreLogPath 31 sampleName sampleTime 0).1
      scoreLogPath ≠ some 31 := by
  decide

/-- C9, amended: for every score `s` with `0 ≤ s ≤ 30`, the range `updateScore`
accepts whatever the round length is, and every prior content of the file
system, after `updateScore` appends `s`, `getPreviousScore` on the score log
returns `s`. -/
theorem score_round_trip (fs : Files) (scoreFileName : String) (s : Int)
    (programName time : List Char) (nZero : Int) (h0 : 0 ≤ s) (h30 : s ≤ 30) :
    getPreviousScore (updateScore fs scoreFileName s programName time nZero).1
      scoreLogPath = some s :=
  getPreviousScore_updateScore fs scoreFileName s programName time nZero h0 h30

/-- C9 amended, at a concrete input: appending 7 to a log that ends with the
score 5 makes `getPreviousScore` return 7. -/
theorem score_round_trip_witness :
    getPreviousScore (updateScore (logWith 5) scoreLogPath 7 sampleName sampleTime 0).1
      scoreLogPath = some 7 :=
  score_round_trip (logWith 5) scoreLogPath 7 sampleName sampleTime 0 (by decide) (by decide)

/-- C10 as stated fails: with round length 40 the score 35 lies in `[0, L]`, and
`updateScore` rejects it and leaves the file system as it was. -/
theorem updateScore_rejects_inside_round_length :
    ¬ ((35 : Int) < 0 ∨ (40 : Int) < 35) ∧
    updateScore (logWith 5) scoreLogPath 35 sampleName sampleTime 0 =
      (logWith 5, ["Invalid Score"]) :=
  ⟨by decide, rfl⟩

/-- C10, amended: `updateScore` rejects the score (it reports "Invalid Score"
and leaves every file unchanged) if and only if the score is outside `[0, 30]`,
a bound that does not depend on the round length; for a score inside `[0, 30]`
it reports nothing, appends exactly one record to the score log and leaves
every other file unchanged. -/
theorem updateScore_rejects_iff (fs : Files) (scoreFileName : String) (s : Int)
    (programName time : List Char) (nZero : Int) :
    ((updateScore fs scoreFileName s programName time nZero).2 = ["Invalid Score"] ↔
      (s < 0 ∨ 30 < s)) ∧
    ((updateScore fs scoreFileName s programName time nZero).1 = fs ↔ (s < 0 ∨ 30 < s)) ∧
    (0 ≤ s → s ≤ 30 →
      (updateScore fs scoreFileName s programName time nZero).2 = [] ∧
      (updateScore fs scoreFileName s programName time nZero).1 scoreLogPath =
        some ((fs scoreLogPath).getD [] ++
          PRINT_MSG time programName (scoreStr s (digitCount s nZero))) ∧
      ∀ q : String, q ≠ scoreLogPath →
        (updateScore fs scoreFileName s programName time nZero).1 q = fs q) := by
  have hacc : 0 ≤ s → s ≤ 30 →
      (updateScore fs scoreFileName s programName time nZero).1 ≠ fs := by
    intro h0 h30 heq
    rw [updateScore_accept fs scoreFileName s programName time nZero h0 h30] at heq
    have h := congrFun heq scoreLogPath
    simp only [appendFile_same] at h
    have hlen := congrArg (fun o : Option (List Char) => (o.getD []).length) h
    simp [PRINT_MSG] at hlen
  refine ⟨?_, ?_, ?_⟩
  · constructor
    · intro h
      by_contra hin
      rw [updateScore_accept fs scoreFileName s programName time nZero (by omega)
        (by omega)] at h
      simp at h
    · intro h
      rw [updateScore_reject fs scoreFileName s programName time nZero h]
  · constructor
    · intro h
      by_contra hin
      exact hacc (by omega) (by omega) h
    · intro h
      rw [updateScore_reject fs scoreFileName s programName time nZero h]
  · intro h0 h30
    rw [updateScore_accept fs scoreFileName s programName time nZero h0 h30]
    simp only
    exact ⟨trivial, appendFile_same _ _ _, fun q hq => appendFile_other _ _ _ _ hq⟩

/-- C10 amended, at a concrete input: the score 30 is accepted and its record
goes after the record already in the score log. -/
theorem updateScore_rejects_iff_witness :
    (updateScore (logWith 5) scoreLogPath 30 sampleName sampleTime 0).1 scoreLogPath =
      some (PRINT_MSG sampleTime sampleName ['0', '5'] ++
        PRINT_MSG sampleTime sampleName ['3', '0']) :=
  ((updateScore_rejects_iff (logWith 5) scoreLogPath 30 sampleName sampleTime 0).2.2
    (by decide) (by decide)).2.1.trans (by decide)

/-- C11, the code at the failing inputs: on a score log that exists and is
empty `fseek` fails, both `getc` return `EOF` and `getPreviousScore` returns
`(0 * 10 + (-1 - 48)) * 10 + (-1 - 48) = -539`, not 0; on a missing score log it
calls `fseek` on the null pointer before its test `if (scoreFile)` and does
not return. -/
theorem getPreviousScore_without_record :
    getPreviousScore emptyLog scoreLogPath = some (-539) ∧
    getPreviousScore noFiles scoreLogPath = none := by
  decide

/-- C12, the code at the failing inputs: `main` writes the score 0 to a fresh
score log and calls `assignSong`; for the round lengths 1 and 2 the first
threshold is 0, the score 0 is not below it, and the tier is Hard; from round
length 3 on it is Easy. -/
theorem first_song_for_short_rounds :
    (assignSong (updateScore noFiles mainScoreName 0 sampleName sampleTime 0).1
      alternatingSong "/home/pi/score.log" 1 []).map Assigned.tier = some Tier.Hard ∧
    (assignSong (updateScore noFiles mainScoreName 0 sampleName sampleTime 0).1
      alternatingSong "/home/pi/score.log" 2 []).map Assigned.tier = some Tier.Hard ∧
    (assignSong (updateScore noFiles mainScoreName 0 sampleName sampleTime 0).1
      alternatingSong "/home/pi/score.log" 3 []).map Assigned.tier = some Tier.Easy := by
  decide

/-- C13: with six different LED pins among the first 32 and any levels of
the pins before: `updateLEDs` at interval index 0 leaves each back-row LED lit
exactly when the flag of row 0 is set, writes to no front-row pin and leaves the
front row as it was; at the entry of the round loop, after the `setAllOff` of
`main`, the front row is dark and the back row shows row 0; and `updateLEDs` at
an interval index `k > 0` leaves the front row showing row `k - 1` and the back
row showing row `k`. -/
theorem updateLEDs_display (LEDs : ledPins) (song : Int → row) (level : Nat → Bool)
    (hpins : validPins LEDs) :
    (rowShown (pinLevels (updateLEDs LEDs song 0) level)
        LEDs.led21 LEDs.led22 LEDs.led23 (song 0) ∧
      (∀ e ∈ updateLEDs LEDs song 0, ∀ pin ∈ [LEDs.led11, LEDs.led12, LEDs.led13],
        e ≠ Effect.outputOn pin ∧ e ≠ Effect.outputOff pin) ∧
      pinLevels (updateLEDs LEDs song 0) level LEDs.led11 = level LEDs.led11 ∧
      pinLevels (updateLEDs LEDs song 0) level LEDs.led12 = level LEDs.led12 ∧
      pinLevels (updateLEDs LEDs song 0) level LEDs.led13 = level LEDs.led13) ∧
    (∀ (INTERVAL_TIME MAX_INTERVALS : Int) (butts : buttons) (waits : List ButtonPoll)
        (now : Int) (s : RoundState) (es : List Effect),
      enterPlaying
          { INTERVAL_TIME := INTERVAL_TIME, MAX_INTERVALS := MAX_INTERVALS, butts := butts,
            LEDs := LEDs, song := song } waits now = some (s, es) →
        pinLevels es level LEDs.led11 = false ∧ pinLevels es level LEDs.led12 = false ∧
        pinLevels es level LEDs.led13 = false ∧
        rowShown (pinLevels es level) LEDs.led21 LEDs.led22 LEDs.led23 (song 0)) ∧
    (∀ k : Int, 0 < k →
      rowShown (pinLevels (updateLEDs LEDs song k) level)
        LEDs.led11 LEDs.led12 LEDs.led13 (song (k - 1)) ∧
      rowShown (pinLevels (updateLEDs LEDs song k) level)
        LEDs.led21 LEDs.led22 LEDs.led23 (song k)) := by
  have hzero := pinLevels_updateLEDs_zero LEDs song
  refine ⟨⟨(hzero level hpins).1, ?_, (hzero level hpins).2⟩, ?_, ?_⟩
  · intro e he pin hpin
    have hw := updateLEDs_zero_writes LEDs song e he
    obtain ⟨hnd, -⟩ := hpins
    simp only [List.nodup_cons, List.mem_cons, List.mem_singleton, not_or, List.not_mem_nil,
      not_false_eq_true, List.nodup_nil, and_true, List.mem_nil_iff, or_false] at hnd hpin
    obtain ⟨⟨n12, n13, n14, n15, n16⟩, ⟨n23, n24, n25, n26⟩, ⟨n34, n35, n36⟩, -, -⟩ := hnd
    rcases hpin with h | h | h <;> subst h <;>
      rcases hw with h | h | h | h | h | h <;> subst h <;>
      simp [Ne.symm n14, Ne.symm n15, Ne.symm n16, Ne.symm n24, Ne.symm n25, Ne.symm n26,
        Ne.symm n34, Ne.symm n35, Ne.symm n36]
  · intro INTERVAL_TIME MAX_INTERVALS butts waits now s es hes
    unfold enterPlaying at hes
    split at hes
    · exact absurd hes (by simp)
    · simp only [Option.some.injEq, Prod.mk.injEq] at hes
      obtain ⟨-, rfl⟩ := hes
      simp only [pinLevels_append, pinLevels_cons, pinLevels_nil, applyEffect_printMsg]
      have hoff := pinLevels_setAllOff_front LEDs level hpins
      have hz := hzero (pinLevels (setAllOff LEDs) level) hpins
      exact ⟨hz.2.1.trans hoff.1, hz.2.2.1.trans hoff.2.1, hz.2.2.2.trans hoff.2.2, hz.1⟩
  · intro k hk
    exact pinLevels_updateLEDs_pos LEDs song level k (by omega) hpins

/-- C13 at the pins of `main` and the alternating song, all pins high before:
at the entry of the round loop the front row is dark and the back row shows
row 0, which has all flags set. -/
theorem updateLEDs_display_witness :
    pinLevels (setAllOff mainLEDs ++ [Effect.printMsg "Waiting for Input"] ++
        updateLEDs mainLEDs alternatingSong 0 ++ [Effect.printMsg "Game Comencing"])
      (fun _ => true) 4 = false ∧
    rowShown
      (pinLevels (setAllOff mainLEDs ++ [Effect.printMsg "Waiting for Input"] ++
        updateLEDs mainLEDs alternatingSong 0 ++ [Effect.printMsg "Game Comencing"])
        (fun _ => true))
      7 8 9 { status1 := 1, status2 := 1, status3 := 1 } :=
  have h := (updateLEDs_display mainLEDs alternatingSong (fun _ => true) (by decide)).2.1
    1 9 mainButts [{ r1 := idleLevel, r2 := idleLevel, r3 := idleLevel }] 0 _ _ rfl
  ⟨h.1, h.2.2.2⟩

/-- C14, the code at a failing input: a round of length 1 on the alternating
song with one pass that reaches the deadline.  The pass is the last interval
boundary, the loop has exited after it, and its effects end with
`updateLEDs(LEDs, song, 1)`: the display is updated, the back row is written
from row 1, which is outside `0 .. L-1`; a note sequence that differs in row 1
only gives other effects. -/
theorem last_boundary_updates_display :
    roundGoesOn (alternatingSetup 1)
      (roundLoop (alternatingSetup 1) (roundStart 0) [idleBoundary 1]) = false ∧
    roundEffects (alternatingSetup 1) (roundStart 0) [idleBoundary 1] =
      [Effect.printMsg "Incorrect Response"] ++ updateLEDs mainLEDs alternatingSong 1 ∧
    updateLEDs mainLEDs alternatingSong 1 =
      [setLED (alternatingSong 1).status1 7, setLED (alternatingSong 1).status2 8,
       setLED (alternatingSong 1).status3 9, setLED (alternatingSong 0).status1 4,
       setLED (alternatingSong 0).status2 5, setLED (alternatingSong 0).status3 6] ∧
    roundEffects
        { alternatingSetup 1 with
          song := withRow alternatingSong 1 { status1 := 1, status2 := 1, status3 := 1 } }
        (roundStart 0) [idleBoundary 1] ≠
      roundEffects (alternatingSetup 1) (roundStart 0) [idleBoundary 1] := by
  decide

/-- C15: with valid LED pins, in every state the round loop reaches with an
interval index `k > 0`, the front LED row, as the display updates from the
entry of the round have left it, shows row `k - 1` and the back row shows row
`k`; and a pass in that state judges a strum with `checkButtons` on row `k - 1`,
the row of the front LEDs: it counts as a hit exactly when the strum sensor
reads broken and `checkButtons` at index `k - 1` returns true. -/
theorem judged_row_is_front_row (g : Setup) (now : Int) (ps : List Poll)
    (level : Nat → Bool) (hpins : validPins g.LEDs)
    (hk : 0 < (roundLoop g (roundStart now) ps).intervalCounter) :
    rowShown
      (pinLevels (updateLEDs g.LEDs g.song 0 ++ roundEffects g (roundStart now) ps) level)
      g.LEDs.led11 g.LEDs.led12 g.LEDs.led13
      (g.song ((roundLoop g (roundStart now) ps).intervalCounter - 1)) ∧
    rowShown
      (pinLevels (updateLEDs g.LEDs g.song 0 ++ roundEffects g (roundStart now) ps) level)
      g.LEDs.led21 g.LEDs.led22 g.LEDs.led23
      (g.song (roundLoop g (roundStart now) ps).intervalCounter) ∧
    ∀ p : Poll,
      (strumHit g (roundLoop g (roundStart now) ps) p = true ↔
        ifStrummed p.strumLevel = true ∧
        checkButtons p.lvl1 p.lvl2 p.lvl3
          ((roundLoop g (roundStart now) ps).intervalCounter - 1) g.butts g.song = true) ∧
      (roundCycle g (roundLoop g (roundStart now) ps) p).1.correct =
        (roundLoop g (roundStart now) ps).correct +
          (if intervalOver g (roundLoop g (roundStart now) ps) p = true ∧
              (strumHit g (roundLoop g (roundStart now) ps) p ||
                (roundLoop g (roundStart now) ps).gotItRight) = true
            then 1 else 0) := by
  have hz := pinLevels_updateLEDs_zero g.LEDs g.song level hpins
  have h := pinLevels_roundEffects g hpins ps (roundStart now)
    (pinLevels (updateLEDs g.LEDs g.song 0) level) (le_refl _)
    ⟨fun h => absurd rfl h, hz.1⟩
  rw [pinLevels_append]
  refine ⟨h.1 (by omega), h.2, ?_⟩
  intro p
  constructor
  · unfold strumHit
    simp only [Bool.and_eq_true, decide_eq_true_eq]
    constructor
    · rintro ⟨hs, -, hc⟩; exact ⟨hs, hc⟩
    · rintro ⟨hs, hc⟩; exact ⟨hs, hk, hc⟩
  · rw [roundCycle_correct]
    split <;> simp

/-- C15 at a concrete state: after the first two passes of `nineHits` the
interval index is 2, the front row shows row 1 (all flags clear), the back row
shows row 2 (all flags set), and a strum with all buttons released, which
matches row 1 and not row 2, is a hit. -/
theorem judged_row_is_front_row_witness :
    rowShown
      (pinLevels (updateLEDs mainLEDs alternatingSong 0 ++
        roundEffects (alternatingSetup 9) (roundStart 0) (nineHits.take 2)) (fun _ => false))
      4 5 6 { status1 := 0, status2 := 0, status3 := 0 } ∧
    strumHit (alternatingSetup 9)
      (roundLoop (alternatingSetup 9) (roundStart 0) (nineHits.take 2))
      (strumBoundary 134144 3) = true :=
  have h := judged_row_is_front_row (alternatingSetup 9) 0 (nineHits.take 2)
    (fun _ => false) (by decide) (by decide)
  ⟨h.1, ((h.2.2 (strumBoundary 134144 3)).1).mpr (by decide)⟩

/-- C16 as stated fails: with round length 3 and an easy song file of one
line, `assignSong` returns as usual and the pass of `main` plays the round to
its end (interval index 3); only row 0 comes from the file, rows 1 and 2 are
the rows the array held before. -/
theorem short_song_file_round_runs :
    (mainPass 1 3 oneLineSong alternatingSong idlePass).toOption.map
        (fun r => (r.song 0, r.song 1, r.song 2, r.final.intervalCounter)) =
      some ({ status1 := 1, status2 := 0, status3 := 1 }, alternatingSong 1,
        alternatingSong 2, 3) := by
  decide

/-- C16, amended: `assignSong` reports no failure.  When the score log can be
read and the song file of the chosen tier exists, whatever its length, it
returns with the rows it read in `song[0 .. n-1]`, `n` at most the number of
characters of the file, and leaves every other entry of `song` as it was; and
`main` starts the round with this array all the same: once the buttons are
released and the polls reach the end of the round the pass completes. -/
theorem short_song_file_round_starts (fs : Files) (song : Int → row)
    (INTERVAL_TIME L : Int) (inp : PassInput) (s : Int) (stream : List Char)
    (hs : getPreviousScore fs "/home/pi/score.log" = some s) (hL : 0 < L)
    (hfile : fs (songPath (chooseTier s L)) = some stream)
    (hwait : waitForRelease mainButts inp.waits ≠ none)
    (hdone : roundGoesOn
      { INTERVAL_TIME := INTERVAL_TIME, MAX_INTERVALS := L, butts := mainButts,
        LEDs := mainLEDs, song := loadRows L.toNat 0 inp.buffer stream song }
      (roundLoop
        { INTERVAL_TIME := INTERVAL_TIME, MAX_INTERVALS := L, butts := mainButts,
          LEDs := mainLEDs, song := loadRows L.toNat 0 inp.buffer stream song }
        (roundStart inp.now) inp.polls) = false) :
    ∃ r : PassResult, mainPass INTERVAL_TIME L fs song inp = Except.ok r ∧
      r.tier = chooseTier s L ∧
      r.song = loadRows L.toNat 0 inp.buffer stream song ∧
      (∀ k : Int, k < 0 ∨ (loadCount L.toNat inp.buffer stream : Int) ≤ k →
        r.song k = song k) ∧
      loadCount L.toNat inp.buffer stream ≤ stream.length ∧
      loadCount L.toNat inp.buffer stream ≤ L.toNat := by
  have hassign : assignSong fs song "/home/pi/score.log" L inp.buffer =
      some { tier := chooseTier s L,
             song := some (loadRows L.toNat 0 inp.buffer stream song) } := by
    unfold assignSong
    rw [hs]
    simp only [if_neg (not_le.mpr hL), hfile]
  obtain ⟨rest, hrest⟩ := Option.ne_none_iff_exists'.mp hwait
  unfold mainPass
  simp only [hassign, enterPlaying, hrest, hdone, Bool.false_eq_true, if_false]
  refine ⟨_, rfl, rfl, rfl, ?_, loadCount_le_length _ _ _, loadCount_le_todo _ _ _⟩
  intro k hk
  exact loadRows_outside L.toNat 0 inp.buffer stream song k (by simpa using hk)

/-- C16 amended, at a concrete input: round length 3, an easy song file of one
line, the alternating song in the array before: the pass completes, row 0 is
the row of the file and rows 1 and 2 are the old ones. -/
theorem short_song_file_round_starts_witness :
    ∃ r : PassResult, mainPass 1 3 oneLineSong alternatingSong idlePass = Except.ok r ∧
      r.song 0 = { status1 := 1, status2 := 0, status3 := 1 } ∧
      r.song 1 = alternatingSong 1 ∧ r.song 2 = alternatingSong 2 := by
  obtain ⟨r, hr, -, hsong, hout, -, -⟩ :=
    short_song_file_round_starts oneLineSong alternatingSong 1 3 idlePass 0
      "1 0 1\n".toList (by decide) (by decide) (by decide) (by decide) (by decide)
  refine ⟨r, hr, ?_, hout 1 (Or.inr (by decide)), hout 2 (Or.inr (by decide))⟩
  rw [hsong]
  decide

/-- C17: `anythingPressed` returns true exactly when at least one of the
three buttons reads pressed, that is when its test `sel_reg & (1 << pin)` gives
0, which for a pin among the first 32 says that the level bit of the pin is 0.
And `main` enters the playing phase (`intervalCounter = 0`, `correct = 0`,
`gotItRight` clear, the timer at the current time, the first `updateLEDs`) only
when its wait loop has taken a sample on which `anythingPressed` returned
false, all three buttons reading not pressed, every sample before it reading
some button pressed; while every sample reads a pressed button it does not
enter it. -/
theorem playing_begins_after_release (g : Setup) (waits : List ButtonPoll) (now : Int) :
    (∀ r1 r2 r3 : Nat, anythingPressed g.butts r1 r2 r3 = true ↔
      (levelLow r1 g.butts.b1 = true ∨ levelLow r2 g.butts.b2 = true ∨
        levelLow r3 g.butts.b3 = true)) ∧
    (∀ sel_reg pin : Nat, pin < 32 →
      (levelLow sel_reg pin = true ↔ sel_reg.testBit pin = false)) ∧
    (∀ (s : RoundState) (es : List Effect), enterPlaying g waits now = some (s, es) →
      s = roundStart now ∧
      (∃ es0 : List Effect,
        es = es0 ++ updateLEDs g.LEDs g.song 0 ++ [Effect.printMsg "Game Comencing"]) ∧
      ∃ (pre : List ButtonPoll) (w : ButtonPoll) (post : List ButtonPoll),
        waits = pre ++ w :: post ∧
        (∀ v ∈ pre, anythingPressed g.butts v.r1 v.r2 v.r3 = true) ∧
        anythingPressed g.butts w.r1 w.r2 w.r3 = false ∧
        levelLow w.r1 g.butts.b1 = false ∧ levelLow w.r2 g.butts.b2 = false ∧
        levelLow w.r3 g.butts.b3 = false) ∧
    ((∀ w ∈ waits, anythingPressed g.butts w.r1 w.r2 w.r3 = true) →
      enterPlaying g waits now = none) := by
  refine ⟨?_, ?_, ?_, ?_⟩
  · intro r1 r2 r3
    rw [anythingPressed_eq_or]
    simp only [Bool.or_eq_true, or_assoc]
  · intro sel_reg pin hpin
    rw [levelLow_eq_not_testBit sel_reg pin hpin]
    cases sel_reg.testBit pin <;> simp
  · intro s es h
    unfold enterPlaying at h
    cases hw : waitForRelease g.butts waits with
    | none => rw [hw] at h; exact absurd h (by simp)
    | some post =>
      rw [hw] at h
      simp only [Option.some.injEq, Prod.mk.injEq] at h
      obtain ⟨rfl, rfl⟩ := h
      obtain ⟨pre, w, hwaits, hpre, hrel⟩ := waitForRelease_some g.butts waits post hw
      refine ⟨rfl, ⟨_, rfl⟩, pre, w, post, hwaits, hpre, hrel, ?_⟩
      rw [anythingPressed_eq_or] at hrel
      simpa [Bool.or_eq_false_iff, and_assoc] using hrel
  · intro h
    unfold enterPlaying
    rw [waitForRelease_none g.butts waits h]

/-- C17 at a concrete input: while button 1 is held in every sample the wait
loop of `main` does not exit and the playing phase is not entered. -/
theorem playing_begins_after_release_witness :
    enterPlaying (alternatingSetup 9)
      [{ r1 := 0, r2 := idleLevel, r3 := idleLevel },
       { r1 := 0, r2 := idleLevel, r3 := idleLevel }] 5 = none :=
  (playing_begins_after_release (alternatingSetup 9)
    [{ r1 := 0, r2 := idleLevel, r3 := idleLevel },
     { r1 := 0, r2 := idleLevel, r3 := idleLevel }] 5).2.2.2 (by decide)

/-- C18: in any state of the round loop, a pass in which the deadline is not
reached leaves a set `gotItRight` set, and so does any number of such passes,
whatever the sensors read in them, the interval index staying the same; and
after a pass that is an interval boundary `gotItRight` is false. -/
theorem gotItRight_monotone_in_interval (g : Setup) (s : RoundState) :
    (∀ p : Poll, intervalOver g s p = false → s.gotItRight = true →
      (roundCycle g s p).1.gotItRight = true) ∧
    (∀ ps : List Poll, s.gotItRight = true → (∀ p ∈ ps, intervalOver g s p = false) →
      (roundLoop g s ps).gotItRight = true ∧
      (roundLoop g s ps).intervalCounter = s.intervalCounter) ∧
    (∀ p : Poll, intervalOver g s p = true → (roundCycle g s p).1.gotItRight = false) := by
  refine ⟨?_, ?_, ?_⟩
  · intro p hov hg
    rw [roundCycle_not_over g s p hov]
    simp [hg]
  · intro ps hg hno
    exact roundLoop_keeps_hit g ps s hg hno
  · intro p hov
    rw [roundCycle_over g s p hov]

/-- C18 at a concrete state: in interval 1 of the alternating round, with the
hit flag set, a pass before the deadline with the beam intact and no button
pressed leaves the flag set. -/
theorem gotItRight_monotone_in_interval_witness :
    (roundCycle (alternatingSetup 9)
      { intervalCounter := 1, correct := 0, gotItRight := true, currentTime := 1 }
      (idleBoundary 1)).1.gotItRight = true :=
  (gotItRight_monotone_in_interval (alternatingSetup 9)
    { intervalCounter := 1, correct := 0, gotItRight := true, currentTime := 1 }).1
    (idleBoundary 1) (by decide) (by decide)

/-- C19: for a round length `L ≥ 1`, when the round loop has exited, the
round has played exactly `L - 1` clips, the number of "correct" clips is the
final score, the final score plus the number of "incorrect" clips is `L - 1`,
and the final score is at most `L - 1`. -/
theorem round_clip_counts (g : Setup) (now : Int) (ps : List Poll)
    (hL : 1 ≤ g.MAX_INTERVALS)
    (hdone : roundGoesOn g (roundLoop g (roundStart now) ps) = false) :
    (((clipLog g (roundStart now) ps).length : Nat) : Int) = g.MAX_INTERVALS - 1 ∧
    ((((clipLog g (roundStart now) ps).map Prod.snd).count Clip.niceSoundPath : Nat) : Int) =
      (roundLoop g (roundStart now) ps).correct ∧
    (roundLoop g (roundStart now) ps).correct +
      ((((clipLog g (roundStart now) ps).map Prod.snd).count Clip.badSoundPath : Nat) : Int) =
      g.MAX_INTERVALS - 1 ∧
    (roundLoop g (roundStart now) ps).correct ≤ g.MAX_INTERVALS - 1 := by
  have hic : (roundStart now).intervalCounter = 0 := rfl
  have hcor : (roundStart now).correct = 0 := rfl
  have hlen := clipLog_length g ps (roundStart now) (le_refl _) (by rw [hic]; omega)
    (fun _ => rfl) hdone
  have hnice := clipLog_nice_count g ps (roundStart now)
  have hsum := count_nice_add_bad ((clipLog g (roundStart now) ps).map Prod.snd)
  rw [List.length_map] at hsum
  rw [hic, if_pos ⟨rfl, by omega⟩] at hlen
  rw [hcor] at hnice
  omega

/-- C19 at a concrete round: the round `nineHits` of 9 intervals plays 8
clips, all of them "correct" clips, and its score is 8. -/
theorem round_clip_counts_witness :
    (((clipLog (alternatingSetup 9) (roundStart 0) nineHits).length : Nat) : Int) = 9 - 1 ∧
    ((((clipLog (alternatingSetup 9) (roundStart 0) nineHits).map Prod.snd).count
        Clip.niceSoundPath : Nat) : Int) =
      (roundLoop (alternatingSetup 9) (roundStart 0) nineHits).correct :=
  have h := round_clip_counts (alternatingSetup 9) 0 nineHits (by decide) (by decide)
  ⟨h.1, h.2.1⟩

/-- C20: take two runs of the round loop, with the same buttons and the same
note sequence, and in each a pass that is the boundary of interval `k`.  If the
sensor and button samples of the passes of interval `k` are the same in the
two runs, then the two boundaries have the same outcome: the same change of
the score and the same clip, whatever the samples of the other intervals,
the clocks, the interval time and the round length are. -/
theorem interval_outcome_independent (gA gB : Setup) (nowA nowB : Int)
    (psA psB : List Poll) (spA spB : RoundState × Poll)
    (hbutts : gA.butts = gB.butts) (hsong : gA.song = gB.song)
    (hA : spA ∈ roundTrace gA (roundStart nowA) psA)
    (hB : spB ∈ roundTrace gB (roundStart nowB) psB)
    (hoverA : intervalOver gA spA.1 spA.2 = true)
    (hoverB : intervalOver gB spB.1 spB.2 = true)
    (hk : spA.1.intervalCounter = spB.1.intervalCounter)
    (hagree : intervalSamples gA (roundStart nowA) psA spA.1.intervalCounter =
      intervalSamples gB (roundStart nowB) psB spB.1.intervalCounter) :
    (roundCycle gA spA.1 spA.2).1.correct - spA.1.correct =
      (roundCycle gB spB.1 spB.2).1.correct - spB.1.correct ∧
    clipsOf spA.1.intervalCounter (roundCycle gA spA.1 spA.2).2 =
      clipsOf spB.1.intervalCounter (roundCycle gB spB.1 spB.2).2 := by
  have hgA := boundary_hit_iff_samples gA nowA psA spA hA hoverA
  have hgB := boundary_hit_iff_samples gB nowB psB spB hB hoverB
  rw [hagree, hbutts, hsong, hk] at hgA
  have hsame : (strumHit gA spA.1 spA.2 || spA.1.gotItRight) =
      (strumHit gB spB.1 spB.2 || spB.1.gotItRight) := by
    rw [Bool.eq_iff_iff, hgA, hgB]
  rw [roundCycle_correct, roundCycle_correct, clipsOf_roundCycle, clipsOf_roundCycle,
    hoverA, hoverB, hsame, hk]
  constructor
  · split <;> simp
  · rfl

/-- C20 at concrete runs: the round `nineHits` of length 9 started at time 0,
and a round of length 2 started at time 3 whose interval 0 has a strum and
other times.  Interval 1 has the same samples in both (a strum with all
buttons pressed), and both boundaries of interval 1 add the same to the score. -/
theorem interval_outcome_independent_witness :
    (roundCycle (alternatingSetup 9)
        { intervalCounter := 1, correct := 0, gotItRight := false, currentTime := 1 }
        (strumBoundary 0 2)).1.correct - 0 =
      (roundCycle (alternatingSetup 2)
        { intervalCounter := 1, correct := 0, gotItRight := false, currentTime := 10 }
        (strumBoundary 0 20)).1.correct - 0 :=
  (interval_outcome_independent (alternatingSetup 9) (alternatingSetup 2) 0 3 nineHits
    [strumBoundary 5 10, strumBoundary 0 20]
    ({ intervalCounter := 1, correct := 0, gotItRight := false, currentTime := 1 },
      strumBoundary 0 2)
    ({ intervalCounter := 1, correct := 0, gotItRight := false, currentTime := 10 },
      strumBoundary 0 20)
    rfl rfl (by decide) (by decide) (by decide) (by decide) rfl (by decide)).1

/-- C21 as stated fails: for the flag value 2, which `assignSong` stores for
the digit 2 of a song file, `updateLEDs` lights the LED of the lane, and with
the pins of `main`, button 1 released and buttons 2 and 3 pressed,
`checkButtons` returns true on the row `2 1 1`, as it does with button 1
pressed: a lit LED whose button need not be pressed. -/
theorem lit_led_without_demand :
    statusAt ['2', ' ', '1', ' ', '1', '\n'] 0 = 2 ∧
    setLED 2 mainLEDs.led11 = Effect.outputOn mainLEDs.led11 ∧
    pinLevels (updateLEDs mainLEDs (fun _ => { status1 := 2, status2 := 1, status3 := 1 }) 1)
      (fun _ => false) mainLEDs.led11 = true ∧
    levelLow 131072 mainButts.b1 = false ∧
    checkButtons 131072 131072 131072 0 mainButts
      (fun _ => { status1 := 2, status2 := 1, status3 := 1 }) = true ∧
    checkButtons 0 0 0 0 mainButts
      (fun _ => { status1 := 2, status2 := 1, status3 := 1 }) = true := by
  decide

/-- C21, amended: for every row whose flags are values of an `int`,
`checkButtons` returns true exactly when each lane meets the demand of its
flag, where flag 1 demands the button pressed, flag 0 demands it released and
any other flag demands nothing; and `updateLEDs` lights the LED of a lane
exactly when its flag is not 0, in the back row at the index of the row and in
the front row at the next index.  So for the flags 0 and 1 the LED is lit if and
only if the button must be pressed and unlit if and only if it must be
released, and for every other flag the LED is lit and the button is free. -/
theorem display_and_judgement (lvl1 lvl2 lvl3 : Nat) (intervalCounter : Int)
    (butts : buttons) (song : Int → row)
    (h1 : isInt32 (song intervalCounter).status1)
    (h2 : isInt32 (song intervalCounter).status2)
    (h3 : isInt32 (song intervalCounter).status3) :
    (checkButtons lvl1 lvl2 lvl3 intervalCounter butts song = true ↔
      laneDemand lvl1 butts.b1 (song intervalCounter).status1 ∧
      laneDemand lvl2 butts.b2 (song intervalCounter).status2 ∧
      laneDemand lvl3 butts.b3 (song intervalCounter).status3) ∧
    (∀ (flag : Int) (pin : Nat),
      (setLED flag pin = Effect.outputOn pin ↔ flag ≠ 0) ∧
      (setLED flag pin = Effect.outputOff pin ↔ flag = 0)) ∧
    (∀ (LEDs : ledPins) (level : Nat → Bool), validPins LEDs →
      rowShown (pinLevels (updateLEDs LEDs song intervalCounter) level)
        LEDs.led21 LEDs.led22 LEDs.led23 (song intervalCounter) ∧
      (intervalCounter + 1 ≠ 0 →
        rowShown (pinLevels (updateLEDs LEDs song (intervalCounter + 1)) level)
          LEDs.led11 LEDs.led12 LEDs.led13 (song intervalCounter))) ∧
    (∀ lvl pin : Nat,
      (laneDemand lvl pin 1 ↔ levelLow lvl pin = true) ∧
      (laneDemand lvl pin 0 ↔ levelLow lvl pin = false) ∧
      ∀ flag : Int, flag ≠ 0 → flag ≠ 1 → laneDemand lvl pin flag) := by
  refine ⟨checkButtons_iff_demands lvl1 lvl2 lvl3 intervalCounter butts song h1 h2 h3, ?_, ?_, ?_⟩
  · intro flag pin
    unfold setLED
    by_cases hf : flag = 0 <;> simp [hf]
  · intro LEDs level hpins
    refine ⟨?_, ?_⟩
    · by_cases hk : intervalCounter = 0
      · rw [hk]
        exact (pinLevels_updateLEDs_zero LEDs song level hpins).1
      · exact (pinLevels_updateLEDs_pos LEDs song level intervalCounter hk hpins).2
    · intro hk
      have h := (pinLevels_updateLEDs_pos LEDs song level (intervalCounter + 1) hk hpins).1
      rwa [show intervalCounter + 1 - 1 = intervalCounter by omega] at h
  · intro lvl pin
    refine ⟨by simp [laneDemand], by simp [laneDemand], ?_⟩
    intro flag hf0 hf1
    simp [laneDemand, hf0, hf1]

/-- C21 amended, at a concrete input: on the row `1 0 2`, with the pins of
`main`, button 1 pressed and buttons 2 and 3 released, `checkButtons`
returns true. -/
theorem display_and_judgement_witness :
    checkButtons 3072 3072 3072 0 mainButts
      (fun _ => { status1 := 1, status2 := 0, status3 := 2 }) = true :=
  (display_and_judgement 3072 3072 3072 0 mainButts
    (fun _ => { status1 := 1, status2 := 0, status3 := 2 })
    (by decide) (by decide) (by decide)).1.mpr (by decide)

/-- C24: for every score `s` with `0 ≤ s ≤ 30`, whatever the conversion of
`log10(0) + 1` to `int` gives for `s = 0`, the text `scoreStr` that
`updateScore` writes is exactly two characters, the digit of `s / 10` then the
digit of `s % 10`, both between `'0'` and `'9'`; the score log after the call
ends with these two digits and two newline characters; and 0 gives "00", 7
gives "07", 30 gives "30". -/
theorem score_text_two_digits (fs : Files) (scoreFileName : String) (s : Int)
    (programName time : List Char) (nZero : Int) (h0 : 0 ≤ s) (h30 : s ≤ 30) :
    scoreStr s (digitCount s nZero) =
      [Char.ofNat (48 + s.toNat / 10), Char.ofNat (48 + s.toNat % 10)] ∧
    ((Char.ofNat (48 + s.toNat / 10)).toNat = 48 + s.toNat / 10 ∧ s.toNat / 10 < 10 ∧
      (Char.ofNat (48 + s.toNat % 10)).toNat = 48 + s.toNat % 10 ∧ s.toNat % 10 < 10) ∧
    (∃ before : List Char,
      (updateScore fs scoreFileName s programName time nZero).1 scoreLogPath =
        some (before ++
          [Char.ofNat (48 + s.toNat / 10), Char.ofNat (48 + s.toNat % 10), '\n', '\n'])) ∧
    scoreStr 0 (digitCount 0 nZero) = "00".toList ∧
    scoreStr 7 (digitCount 7 nZero) = "07".toList ∧
    scoreStr 30 (digitCount 30 nZero) = "30".toList := by
  refine ⟨scoreStr_digits s nZero h0 h30, ?_,
    ⟨_, updateScore_record fs scoreFileName s programName time nZero h0 h30⟩,
    scoreStr_digits 0 nZero (by decide) (by decide),
    scoreStr_digits 7 nZero (by decide) (by decide),
    scoreStr_digits 30 nZero (by decide) (by decide)⟩
  interval_cases s <;> decide

/-- C24 at a concrete input: the score 7 appended to an empty file system
leaves a score log that ends with "07" and two newlines. -/
theorem score_text_two_digits_witness :
    scoreStr 7 (digitCount 7 0) = ['0', '7'] ∧
    (updateScore noFiles scoreLogPath 7 sampleName sampleTime 0).1 scoreLogPath =
      some (sampleTime ++ " : ".toList ++ sampleName ++ " : ".toList ++
        ['0', '7', '\n', '\n']) :=
  have h := score_text_two_digits noFiles scoreLogPath 7 sampleName sampleTime 0
    (by decide) (by decide)
  ⟨h.1, by decide⟩

/-- C22: let the score log be readable and the song file of the chosen tier
start with lines of the form `a b c` and a newline, `a`, `b`, `c` decimal
digits, either at least `MAX_INTERVALS` of them or all `n` lines of the file.
Then `assignSong` returns with `song[k]` holding the digit values `(a, b, c)`
of line `k` for every `k` below `MAX_INTERVALS` and below the number of lines,
and with every entry from `MAX_INTERVALS` on, and every entry from `n` on,
as it was before. -/
theorem assignSong_loads_rows (fs : Files) (song : Int → row) (scoreFileName : String)
    (L : Int) (buffer : List Char) (s : Int) (lines : List (Char × Char × Char))
    (rest : List Char)
    (hs : getPreviousScore fs scoreFileName = some s)
    (hfile : fs (songPath (chooseTier s L)) = some (lines.flatMap songLine ++ rest))
    (hdigits : ∀ t ∈ lines, isDigitChar t.1 ∧ isDigitChar t.2.1 ∧ isDigitChar t.2.2)
    (hshape : L ≤ (lines.length : Int) ∨ rest = []) :
    ∃ song1 : Int → row,
      assignSong fs song scoreFileName L buffer =
        some { tier := chooseTier s L, song := some song1 } ∧
      (∀ (k : Nat) (t : Char × Char × Char), (k : Int) < L → lines.get? k = some t →
        song1 (k : Int) = rowOfLine t) ∧
      (∀ k : Int, k < 0 ∨ L ≤ k ∨ (lines.length : Int) ≤ k → song1 k = song k) := by
  by_cases hL : L ≤ 0
  · refine ⟨song, ?_, ?_, fun k _ => rfl⟩
    · unfold assignSong
      rw [hs]
      simp only [if_pos hL]
    · intro k t hk _
      omega
  · have hload := loadRows_lines rest lines L.toNat 0 buffer song hdigits
      (by
        rcases hshape with h | h
        · left; omega
        · right; exact h)
    refine ⟨loadRows L.toNat 0 buffer (lines.flatMap songLine ++ rest) song, ?_, ?_, ?_⟩
    · unfold assignSong
      rw [hs]
      simp only [if_neg hL, hfile]
    · intro k t hk ht
      have := hload.1 k t (by omega) ht
      simpa using this
    · intro k hk
      exact hload.2 k (by omega)

/-- C22 at a concrete input: round length 3 and an easy song file with the
lines `1 0 1`, `0 1 0`, `1 1 1`: row 1 of the song becomes `(0, 1, 0)`,
whatever the array held before. -/
theorem assignSong_loads_rows_witness :
    ∃ song1 : Int → row,
      assignSong threeLineSong alternatingSong scoreLogPath 3 [] =
        some { tier := Tier.Easy, song := some song1 } ∧
      song1 1 = { status1 := 0, status2 := 1, status3 := 0 } := by
  obtain ⟨song1, h1, h2, -⟩ :=
    assignSong_loads_rows threeLineSong alternatingSong scoreLogPath 3 [] 0
      [('1', '0', '1'), ('0', '1', '0'), ('1', '1', '1')] []
      (by decide) (by decide) (by decide) (by decide)
  exact ⟨song1, h1, h2 1 ('0', '1', '0') (by decide) (by decide)⟩

set_option maxRecDepth 100000 in
/-- C23 as stated fails: a file of three number lines and three path lines
of the stated form, whose first line has a key of 495 characters and the
number 1234.  The line has 503 characters with its newline, `fgets` takes
the first 499 of them, up to the digit 1, and `readConfig` sets
`timeoutTimer` to 1; the rest of the line, `234`, has no `=` and is passed
over. -/
theorem long_line_cuts_number :
    decimalValue "1234".toList 0 = 1234 ∧
    (readConfig
      ([ConfigLine.number (List.replicate 495 'k') "1234".toList,
        ConfigLine.number "b".toList "2".toList,
        ConfigLine.number "c".toList "3".toList,
        ConfigLine.path "d".toList "/x".toList,
        ConfigLine.path "e".toList "/y".toList,
        ConfigLine.path "f".toList "/z".toList].flatMap ConfigLine.render) []).map
      Config.timeoutTimer = some 1 := by
  decide

/-- C23, amended: let every line of the configuration file end with a
newline and be well formed, that is at most 499 characters long with its
newline, a comment `#text`, or `key = digits` with a number below 2^31, or
`key = path` with a path without space, the keys without `=` and without `#`
in front, and no null character in keys and paths.  If the lines that do not
start with `#` are, in order, three number lines and three path lines, then
`readConfig` returns, sets `timeoutTimer`, `intervalTime` and `MAX_INTERVALS`
to the three numbers in that order, and `logFileName`, `badSoundPath` and
`niceSoundPath` to the three paths in that order, each path exactly and
without the newline; the comment lines contribute nothing. -/
theorem readConfig_wellFormed (lines : List ConfigLine) (buffer : List Char)
    (k1 d1 k2 d2 k3 d3 k4 p1 k5 p2 k6 p3 : List Char)
    (hwf : ∀ l ∈ lines, l.wellFormed)
    (hparams : lines.filter ConfigLine.isParam =
      [ConfigLine.number k1 d1, ConfigLine.number k2 d2, ConfigLine.number k3 d3,
        ConfigLine.path k4 p1, ConfigLine.path k5 p2, ConfigLine.path k6 p3]) :
    readConfig (lines.flatMap ConfigLine.render) buffer =
      some
        { timeoutTimer := decimalValue d1 0, intervalTime := decimalValue d2 0,
          MAX_INTERVALS := decimalValue d3 0, logFileName := p1, badSoundPath := p2,
          niceSoundPath := p3 } := by
  have hord : linesInOrder noParams.intInput noParams.strInput lines := by
    apply linesInOrder_filter
    rw [hparams]
    exact ⟨by decide, by decide, by decide, rfl, by decide, rfl, by decide, rfl, by decide,
      trivial⟩
  have hmem : ∀ l ∈ lines.filter ConfigLine.isParam, l.wellFormed :=
    fun l hl => hwf l (List.mem_filter.mp hl).1
  rw [hparams] at hmem
  have h1 : Char.ofNat 0 ∉ p1 := (hmem (ConfigLine.path k4 p1) (by simp)).2.2.2.1
  have h2 : Char.ofNat 0 ∉ p2 := (hmem (ConfigLine.path k5 p2) (by simp)).2.2.2.1
  have h3 : Char.ofNat 0 ∉ p3 := (hmem (ConfigLine.path k6 p3) (by simp)).2.2.2.1
  have hloop := readConfigLines_lines lines ((lines.flatMap ConfigLine.render).length + 1)
    buffer noParams hwf hord (fun _ _ => rfl)
    (Nat.lt_succ_of_le (render_length_le lines))
  rw [foldl_applyLine_filter, hparams] at hloop
  unfold readConfig
  rw [hloop]
  simp [applyLine, noParams, copyStr_of_no_nul, h1, h2, h3]

set_option maxRecDepth 100000 in
/-- C23 amended, at a concrete input: a file with two comment lines, one of
them with an `=`, the numbers 15, 3 and 30 and three paths. -/
theorem readConfig_wellFormed_witness :
    readConfig
      ("# Guitar Zero\ntimeout = 15\n# seconds = 3\ninterval = 3\nmax = 30\n".toList ++
        "log = /home/pi/gz.log\nbad = /home/pi/bad.mp3\nnice = /home/pi/nice.mp3\n".toList) [] =
      some
        { timeoutTimer := 15, intervalTime := 3, MAX_INTERVALS := 30,
          logFileName := "/home/pi/gz.log".toList, badSoundPath := "/home/pi/bad.mp3".toList,
          niceSoundPath := "/home/pi/nice.mp3".toList } :=
  readConfig_wellFormed
    [ConfigLine.comment " Guitar Zero".toList,
      ConfigLine.number "timeout".toList "15".toList,
      ConfigLine.comment " seconds = 3".toList,
      ConfigLine.number "interval".toList "3".toList,
      ConfigLine.number "max".toList "30".toList,
      ConfigLine.path "log".toList "/home/pi/gz.log".toList,
      ConfigLine.path "bad".toList "/home/pi/bad.mp3".toList,
      ConfigLine.path "nice".toList "/home/pi/nice.mp3".toList] []
    "timeout".toList "15".toList "interval".toList "3".toList "max".toList "30".toList
    "log".toList "/home/pi/gz.log".toList "bad".toList "/home/pi/bad.mp3".toList
    "nice".toList "/home/pi/nice.mp3".toList (by decide) (by decide)

end GuitarZero
